import Mathlib

/-!
Verification development for the TenderAtlas blog build script
(`blog/build.py`).  The script's core — metadata parsing, the line-cursor
block scanner, the inline span formatter and the catalog merge — is embedded
shallowly below: Python strings become `List Char` / `String`, the mutable
line cursor becomes an explicitly fueled loop (fuel exhaustion models
non-termination of the Python `while`; for the loops that do terminate the
fuel is chosen large enough and is provably irrelevant), raised exceptions
become `Option` / error results.  Each definition is a direct translation
of the correspondingly named piece of `blog/build.py`.
-/

namespace Blog

/-! ### Python string primitives -/

/-- Characters stripped by Python `str.strip()` and matched by the regex
class `\s` (the ASCII range; the rare non-ASCII whitespace code points are
not modelled, none of the inputs considered here contain them). -/
def isPySpace (c : Char) : Bool :=
  c = ' ' || c = '\t' || c = '\n' || c = '\r' || c = '\x0b' || c = '\x0c'

/-- Python `str.strip()` on a character list. -/
def pyStripChars (l : List Char) : List Char :=
  ((l.dropWhile isPySpace).reverse.dropWhile isPySpace).reverse

/-- Python `str.strip()`. -/
def pyStrip (s : String) : String := ⟨pyStripChars s.data⟩

/-- Python `str.splitlines()` on characters: splits at `\n`, `\r\n`, `\r`,
`\x0b`, `\x0c` (the uncommon extra boundaries `\x1c`–`\x1e`, `\x85`,
U+2028/U+2029 are not modelled); a trailing terminator opens no extra
line and the empty string has no lines. -/
def pySplitlinesChars : List Char → List Char → List (List Char)
  | cur, [] => if cur.isEmpty then [] else [cur.reverse]
  | cur, '\r' :: '\n' :: rest => cur.reverse :: pySplitlinesChars [] rest
  | cur, c :: rest =>
      if c = '\n' || c = '\r' || c = '\x0b' || c = '\x0c' then
        cur.reverse :: pySplitlinesChars [] rest
      else
        pySplitlinesChars (c :: cur) rest

/-- Python `str.splitlines()`. -/
def pySplitlines (s : String) : List String :=
  (pySplitlinesChars [] s.data).map String.mk

/-- Python `str.upper()` (ASCII letters; the script's header keys are
ASCII). -/
def pyUpper (s : String) : String := ⟨s.data.map Char.toUpper⟩

/-- Python `sub in s` (substring containment). -/
def containsSubChars (sub : List Char) : List Char → Bool
  | [] => sub.isEmpty
  | c :: rest => sub.isPrefixOf (c :: rest) || containsSubChars sub rest

/-- Python `sub in s` on strings. -/
def containsSub (sub s : String) : Bool := containsSubChars sub.data s.data

/-- Python `s.split(sep, 1)` for a nonempty separator: the parts before and
after the first occurrence, `none` when the separator does not occur (the
script always guards the split with an `in` test). -/
def splitFirstChars (sep : List Char) : List Char → Option (List Char × List Char)
  | [] => if sep.isEmpty then some ([], []) else none
  | c :: rest =>
      if sep.isPrefixOf (c :: rest) then some ([], (c :: rest).drop sep.length)
      else (splitFirstChars sep rest).map fun p => (c :: p.1, p.2)

/-- Python `s.split(sep, 1)` on strings. -/
def splitFirst (sep s : String) : Option (String × String) :=
  (splitFirstChars sep.data s.data).map fun p => (⟨p.1⟩, ⟨p.2⟩)

/-- Python `s.replace(old, new)` for a nonempty `old` (leftmost,
non-overlapping), with structural fuel: one unit per scanned position, so
fuel `l.length` always suffices (the fallback clause is never reached from
the wrapper below). -/
def pyReplaceF (o : Char) (os nw : List Char) : Nat → List Char → List Char
  | fuel, l =>
    match l, fuel with
    | [], _ => []
    | c :: rest, 0 => c :: rest
    | c :: rest, fuel + 1 =>
        if (o :: os).isPrefixOf (c :: rest) then
          nw ++ pyReplaceF o os nw fuel (rest.drop os.length)
        else
          c :: pyReplaceF o os nw fuel rest

/-- Python `s.replace(old, new)` on strings (`old` nonempty in every use
the script makes). -/
def pyReplace (s old nw : String) : String :=
  match old.data with
  | [] => s
  | o :: os => ⟨pyReplaceF o os nw.data s.data.length s.data⟩

/-! ### The inline formatter (`inline_format`)

`inline_format` applies three `re.sub` passes in order: `\*\*(.+?)\*\*` →
`<strong>…</strong>`, then `\*(.+?)\*` → `<em>…</em>`, then
`\[([^\]]+)\]\(([^)]+)\)` → `<a href="…">…</a>`.  Each pass scans left to
right, replaces a match and resumes after it, and advances one character
when no match starts at the current position.  The lazy group `(.+?)`
matches the shortest nonempty newline-free span followed by the closing
marker. -/

/-- Does the list start with `**`? -/
def startsTwoStars (l : List Char) : Bool :=
  match l with
  | c :: c' :: _ => c = '*' && c' = '*'
  | _ => false

theorem startsTwoStars_eq {l : List Char} (h : startsTwoStars l = true) :
    l = '*' :: '*' :: l.drop 2 := by
  match l with
  | [] => cases h
  | [c] => cases h
  | c :: c' :: rest =>
    simp only [startsTwoStars, Bool.and_eq_true, decide_eq_true_eq] at h
    obtain ⟨rfl, rfl⟩ := h
    rfl

/-- Does the list start with `*`? -/
def startsStar (l : List Char) : Bool :=
  match l with
  | c :: _ => c = '*'
  | [] => false

theorem startsStar_eq {l : List Char} (h : startsStar l = true) :
    l = '*' :: l.tail := by
  match l with
  | [] => cases h
  | c :: rest =>
    simp only [startsStar, decide_eq_true_eq] at h
    subst h
    rfl

/-- The lazy group of `\*\*(.+?)\*\*`: the shortest nonempty newline-free
prefix followed by a closing `**`; returns the group and the characters
after the closing marker. -/
def strongClose : List Char → Option (List Char × List Char)
  | [] => none
  | c :: cs =>
      if c = '\n' then none
      else if startsTwoStars cs then some ([c], cs.drop 2)
      else (strongClose cs).map fun p => (c :: p.1, p.2)

theorem strongClose_spec {l g r : List Char} (h : strongClose l = some (g, r)) :
    l = g ++ '*' :: '*' :: r := by
  induction l generalizing g r with
  | nil => simp [strongClose] at h
  | cons c cs ih =>
    rw [strongClose] at h
    by_cases h1 : c = '\n'
    · rw [if_pos h1] at h; cases h
    · rw [if_neg h1] at h
      by_cases h2 : startsTwoStars cs = true
      · rw [if_pos h2] at h
        simp only [Option.some.injEq, Prod.mk.injEq] at h
        obtain ⟨rfl, rfl⟩ := h
        exact congrArg (List.cons c) (startsTwoStars_eq h2)
      · rw [if_neg h2] at h
        match hm : strongClose cs with
        | none => rw [hm] at h; cases h
        | some (g', r') =>
          rw [hm] at h
          simp only [Option.map_some', Option.some.injEq, Prod.mk.injEq] at h
          obtain ⟨rfl, rfl⟩ := h
          exact congrArg (List.cons c) (ih hm)

theorem strongClose_length {l g r : List Char} (h : strongClose l = some (g, r)) :
    r.length < l.length := by
  have := congrArg List.length (strongClose_spec h)
  simp only [List.length_append, List.length_cons] at this
  omega

/-- The bold pass `re.sub(r'\*\*(.+?)\*\*', r'<strong>\1</strong>', text)`:
at a position starting with `**`, try to complete a match (lazy group, then
closing `**`); on success emit the replacement and resume after the match,
on failure emit one character and rescan from the next position.  One unit
of fuel per emitted position, so fuel `l.length` suffices. -/
def subStrongF : Nat → List Char → List Char
  | fuel, l =>
    match l, fuel with
    | [], _ => []
    | c :: rest, 0 => c :: rest
    | c :: rest, fuel + 1 =>
        if c = '*' && startsStar rest then
          match strongClose rest.tail with
          | some (g, r) => "<strong>".data ++ g ++ "</strong>".data ++ subStrongF fuel r
          | none => '*' :: subStrongF fuel rest
        else c :: subStrongF fuel rest

/-- The bold pass at its canonical fuel. -/
def subStrong (l : List Char) : List Char := subStrongF l.length l

/-- The lazy group of `\*(.+?)\*`. -/
def emClose : List Char → Option (List Char × List Char)
  | [] => none
  | c :: cs =>
      if c = '\n' then none
      else if startsStar cs then some ([c], cs.tail)
      else (emClose cs).map fun p => (c :: p.1, p.2)

theorem emClose_spec {l g r : List Char} (h : emClose l = some (g, r)) :
    l = g ++ '*' :: r := by
  induction l generalizing g r with
  | nil => simp [emClose] at h
  | cons c cs ih =>
    rw [emClose] at h
    by_cases h1 : c = '\n'
    · rw [if_pos h1] at h; cases h
    · rw [if_neg h1] at h
      by_cases h2 : startsStar cs = true
      · rw [if_pos h2] at h
        simp only [Option.some.injEq, Prod.mk.injEq] at h
        obtain ⟨rfl, rfl⟩ := h
        exact congrArg (List.cons c) (startsStar_eq h2)
      · rw [if_neg h2] at h
        match hm : emClose cs with
        | none => rw [hm] at h; cases h
        | some (g', r') =>
          rw [hm] at h
          simp only [Option.map_some', Option.some.injEq, Prod.mk.injEq] at h
          obtain ⟨rfl, rfl⟩ := h
          exact congrArg (List.cons c) (ih hm)

theorem emClose_length {l g r : List Char} (h : emClose l = some (g, r)) :
    r.length < l.length := by
  have := congrArg List.length (emClose_spec h)
  simp only [List.length_append, List.length_cons] at this
  omega

/-- The italic pass `re.sub(r'\*(.+?)\*', r'<em>\1</em>', text)`, fueled
like the bold pass. -/
def subEmF : Nat → List Char → List Char
  | fuel, l =>
    match l, fuel with
    | [], _ => []
    | c :: rest, 0 => c :: rest
    | c :: rest, fuel + 1 =>
        if c = '*' then
          match emClose rest with
          | some (g, r) => "<em>".data ++ g ++ "</em>".data ++ subEmF fuel r
          | none => '*' :: subEmF fuel rest
        else c :: subEmF fuel rest

/-- The italic pass at its canonical fuel. -/
def subEm (l : List Char) : List Char := subEmF l.length l

/-- Recognizer for `](` immediately after the link label. -/
def bracketParen : List Char → Option (List Char)
  | ']' :: '(' :: cs' => some cs'
  | _ => none

theorem bracketParen_eq {l cs' : List Char} (h : bracketParen l = some cs') :
    l = ']' :: '(' :: cs' := by
  unfold bracketParen at h
  split at h
  · cases h; rfl
  · cases h

/-- Recognizer for the closing `)` of a link. -/
def closeParen : List Char → Option (List Char)
  | ')' :: r => some r
  | _ => none

theorem closeParen_eq {l r : List Char} (h : closeParen l = some r) :
    l = ')' :: r := by
  unfold closeParen at h
  split at h
  · cases h; rfl
  · cases h

/-- The greedy nonempty character class `[^X]+` of a regex: the maximal
run of characters different from `stop`, which must be nonempty; returns
the run and the remaining characters. -/
def takeNonempty (stop : Char) (cs : List Char) : Option (List Char × List Char) :=
  if (cs.takeWhile (fun c => c ≠ stop)).isEmpty then none
  else some (cs.takeWhile (fun c => c ≠ stop), cs.drop (cs.takeWhile (fun c => c ≠ stop)).length)

theorem takeNonempty_rest {stop : Char} {cs t rest : List Char}
    (h : takeNonempty stop cs = some (t, rest)) : rest.length ≤ cs.length := by
  unfold takeNonempty at h
  by_cases h1 : ((cs.takeWhile (fun c => c ≠ stop)).isEmpty = true)
  · rw [if_pos h1] at h; cases h
  · rw [if_neg h1] at h
    simp only [Option.some.injEq, Prod.mk.injEq] at h
    obtain ⟨rfl, rfl⟩ := h
    simp only [List.length_drop]
    omega

/-- The body of `\[([^\]]+)\]\(([^)]+)\)` after the opening `[`: greedy
nonempty label of non-`]` characters, then `](`, then greedy nonempty url
of non-`)` characters, then `)`. -/
def linkClose (cs : List Char) : Option (List Char × List Char × List Char) :=
  (takeNonempty ']' cs).bind fun lp =>
    (bracketParen lp.2).bind fun cs' =>
      (takeNonempty ')' cs').bind fun up =>
        (closeParen up.2).map fun r => (lp.1, up.1, r)

theorem linkClose_length {l lbl url r : List Char}
    (h : linkClose l = some (lbl, url, r)) : r.length < l.length := by
  simp only [linkClose, Option.bind_eq_some, Option.map_eq_some'] at h
  obtain ⟨lp, hlp, cs', hcs', up, hup, r', hr', hout⟩ := h
  have e1 := takeNonempty_rest hlp
  have e2 := congrArg List.length (bracketParen_eq hcs')
  have e3 := takeNonempty_rest hup
  have e4 := congrArg List.length (closeParen_eq hr')
  simp only [List.length_cons] at e2 e4
  have : r' = r := congrArg (fun p => p.2.2) hout
  subst this
  omega

/-- The link pass
`re.sub(r'\[([^\]]+)\]\(([^)]+)\)', r'<a href="\2">\1</a>', text)`,
fueled like the other passes. -/
def subLinkF : Nat → List Char → List Char
  | fuel, l =>
    match l, fuel with
    | [], _ => []
    | c :: rest, 0 => c :: rest
    | c :: rest, fuel + 1 =>
        if c = '[' then
          match linkClose rest with
          | some (lbl, url, r) =>
              "<a href=\"".data ++ url ++ "\">".data ++ lbl ++ "</a>".data ++ subLinkF fuel r
          | none => '[' :: subLinkF fuel rest
        else c :: subLinkF fuel rest

/-- The link pass at its canonical fuel. -/
def subLink (l : List Char) : List Char := subLinkF l.length l

/-- `inline_format` from `blog/build.py`: the bold, italic and link passes
applied in that order. -/
def inline_format (s : String) : String :=
  ⟨subLink (subEm (subStrong s.data))⟩

example : inline_format "**bold** and *italic*" =
    "<strong>bold</strong> and <em>italic</em>" := by decide

example : inline_format "see [here](https://x.y)" =
    "see <a href=\"https://x.y\">here</a>" := by decide

/-! ### The image directive `re.match(r'\[SLIKA:\s*(.+?)\s*(?:\|\s*(.+?))?\s*\]', …)`

A faithful model of the backtracking search Python's `re` engine performs
for this one anchored pattern.  Greedy `\s*` prefers the longest run of
whitespace and backtracks to shorter runs when the continuation fails;
lazy `(.+?)` prefers the shortest nonempty newline-free span and extends
it when the continuation fails; the optional group prefers being present.
A `\s*` whose continuation starts with `\|` or `\]` cannot profit from
backtracking (those are not whitespace), so those two occurrences are
modelled by a plain maximal `dropWhile`. -/

/-- Greedy `\s*` followed by continuation `k`: try the longest whitespace
prefix first, backtrack one character at a time. -/
def starSpaces {α : Type} (k : List Char → Option α) : List Char → Option α
  | [] => k []
  | c :: cs =>
      if isPySpace c then
        match starSpaces k cs with
        | some r => some r
        | none => k (c :: cs)
      else k (c :: cs)

/-- The pattern tail `\s*\]`: maximal whitespace run, then the closing
bracket (deterministic, `]` is not whitespace). -/
def imgClose (cs : List Char) : Option (List Char) :=
  match cs.dropWhile isPySpace with
  | ']' :: r => some r
  | _ => none

/-- The lazy caption group: `(.+?)\s*\]` after the whitespace following
`|`.  The group has already consumed its first character when the closing
is first tried. -/
def capFrom : List Char → Option (List Char × List Char)
  | [] => none
  | c :: cs =>
      if c = '\n' then none
      else
        match imgClose cs with
        | some r => some ([c], r)
        | none => (capFrom cs).map fun p => (c :: p.1, p.2)

/-- The pattern after the file group: `\s*(?:\|\s*(.+?))?\s*\]`.  After the
maximal whitespace run, a `|` commits to the caption branch (the absent
branch would need `]` at the same spot) and a `]` closes without caption. -/
def afterG1 (cs : List Char) : Option (Option (List Char) × List Char) :=
  match cs.dropWhile isPySpace with
  | ']' :: r => some (none, r)
  | '|' :: r => (starSpaces capFrom r).map fun p => (some p.1, p.2)
  | _ => none

/-- The lazy file group: `(.+?)` followed by `afterG1`. -/
def g1From : List Char → Option (List Char × Option (List Char) × List Char)
  | [] => none
  | c :: cs =>
      if c = '\n' then none
      else
        match afterG1 cs with
        | some (cap, r) => some ([c], cap, r)
        | none => (g1From cs).map fun p => (c :: p.1, p.2)

/-- `re.match` of the image pattern against a (stripped) line: `some
(file, caption?)` exactly when the pattern matches a prefix of the line;
the characters after the match are discarded, as the script only reads
`group(1)` and `group(2)`. -/
def imgMatch (s : String) : Option (String × Option String) :=
  if "[SLIKA:".data.isPrefixOf s.data then
    (starSpaces g1From (s.data.drop 7)).map fun p => (⟨p.1⟩, p.2.1.map String.mk)
  else none

example : imgMatch "[SLIKA: x.png | Caption]" = some ("x.png", some "Caption") := by decide

example : imgMatch "[SLIKA: x.png]" = some ("x.png", none) := by decide

example : imgMatch "[SLIKA: x.png" = none := by decide

/-! ### `parse_metadata` -/

/-- A Python `dict` with string keys as an association list: assignment
overwrites the existing binding in place or appends a fresh one. -/
def dictSet : List (String × String) → String → String → List (String × String)
  | [], k, v => [(k, v)]
  | (k', v') :: rest, k, v =>
      if k' = k then (k', v) :: rest else (k', v') :: dictSet rest k v

/-- Python `dict` lookup. -/
def dictGet? (m : List (String × String)) (k : String) : Option String :=
  match m with
  | [] => none
  | (k', v') :: rest => if k' = k then some v' else dictGet? rest k

/-- Python `meta.get(k, dflt)`. -/
def dictGetD (m : List (String × String)) (k dflt : String) : String :=
  (dictGet? m k).getD dflt

/-- The body of the `parse_metadata` loop for one header line: when the
stripped line contains a `:`, split at the first `:`, strip both sides,
uppercase the key and assign (overwriting any prior binding); lines
without `:` leave the dict unchanged. -/
def parseStep (meta : List (String × String)) (line : String) : List (String × String) :=
  match splitFirstChars [':'] (pyStrip line).data with
  | some (key, val) => dictSet meta (pyUpper (pyStrip ⟨key⟩)) (pyStrip ⟨val⟩)
  | none => meta

/-- `parse_metadata` from `blog/build.py`: fold the loop body over the
stripped header's lines, starting from the empty dict; the function never
fails. -/
def parse_metadata (header_text : String) : List (String × String) :=
  (pySplitlines (pyStrip header_text)).foldl parseStep []

example : dictGet? (parse_metadata "NASLOV: Prvi\nDATUM: 2026-02-20\nnaslov:  Drugi ") "NASLOV"
    = some "Drugi" := by decide

/-! ### The block scanner (`txt_to_html_content`)

The Python `while i < len(lines)` loop with its mutable cursor `i` and
`in_list` flag, one unit of fuel per iteration of the outer loop.  The two
inner lookahead loops (blockquote and paragraph collection) always
terminate and are modelled by `takeWhile` over the remaining lines.  Fuel
exhaustion (`none`) models non-termination of the Python loop: an
iteration that does not advance the cursor re-runs forever, and no fuel is
enough. -/

/-- String prefix test (`str.startswith`). -/
def startsWithS (pre s : String) : Bool := pre.data.isPrefixOf s.data

/-- Python slicing `s[n:]`. -/
def sDrop (s : String) (n : Nat) : String := ⟨s.data.drop n⟩

/-- The `</ul>` part emitted whenever an open list is closed. -/
def ulClose : String := "        </ul>"

/-- The `<ul>` part emitted when a list opens. -/
def ulOpen : String := "        <ul>"

/-- Close an open list: append `</ul>` if the `in_list` flag is set. -/
def closeIf (parts : List String) (in_list : Bool) : List String :=
  if in_list then parts ++ [ulClose] else parts

/-- The parts emitted for an image directive. -/
def figParts (folder_name img_file caption : String) : List String :=
  ["        <figure class=\"blog-figure\">",
   "          <img src=\"" ++ folder_name ++ "/" ++ img_file ++ "\" alt=\"" ++ caption
     ++ "\" loading=\"lazy\">"]
  ++ (if caption = "" then [] else ["          <figcaption>" ++ caption ++ "</figcaption>"])
  ++ ["        </figure>"]

/-- The break test of the paragraph lookahead loop, on a stripped line:
empty, heading, blockquote, list item, or anything starting with
`[SLIKA:` (the bare prefix `re.match(r'\[SLIKA:', l)`, not the full image
pattern). -/
def paraBreak (l : String) : Bool :=
  l = "" || startsWithS "## " l || startsWithS "### " l || startsWithS "> " l
    || startsWithS "- " l || startsWithS "[SLIKA:" l

/-- The `<li>` part for a list-item line. -/
def liPart (stripped : String) : String :=
  "          <li>" ++ inline_format (pyStrip (sDrop stripped 2)) ++ "</li>"

/-- One run of the scanner loop of `txt_to_html_content`, cursor `i`,
`in_list` flag and accumulated `parts` explicit. -/
def scanLoop (folder_name : String) (lines : List String) :
    Nat → Nat → Bool → List String → Option (List String)
  | fuel, i, in_list, parts =>
    match lines.get? i with
    | none => some (closeIf parts in_list)
    | some line =>
      match fuel with
      | 0 => none
      | fuel + 1 =>
        let stripped := pyStrip line
        if stripped = "" then
          scanLoop folder_name lines fuel (i + 1) false (closeIf parts in_list)
        else
          match imgMatch stripped with
          | some (img_file, cap) =>
              scanLoop folder_name lines fuel (i + 1) false
                (closeIf parts in_list ++ figParts folder_name img_file (cap.getD ""))
          | none =>
            if startsWithS "## " stripped && !startsWithS "### " stripped then
              scanLoop folder_name lines fuel (i + 1) false
                (closeIf parts in_list
                  ++ ["        <h2>" ++ inline_format (pyStrip (sDrop stripped 3)) ++ "</h2>"])
            else if startsWithS "### " stripped then
              scanLoop folder_name lines fuel (i + 1) false
                (closeIf parts in_list
                  ++ ["        <h3>" ++ inline_format (pyStrip (sDrop stripped 4)) ++ "</h3>"])
            else if startsWithS "> " stripped then
              scanLoop folder_name lines fuel
                (i + (((lines.drop i).map pyStrip).takeWhile (fun l => startsWithS "> " l)).length)
                false
                (closeIf parts in_list
                  ++ ["        <blockquote>",
                      "          " ++ inline_format (String.intercalate " "
                        ((((lines.drop i).map pyStrip).takeWhile (fun l => startsWithS "> " l)).map
                          (fun l => sDrop l 2))),
                      "        </blockquote>"])
            else if startsWithS "- " stripped then
              scanLoop folder_name lines fuel (i + 1) true
                ((if in_list then parts else parts ++ [ulOpen]) ++ [liPart stripped])
            else
              scanLoop folder_name lines fuel
                (i + (((lines.drop i).map pyStrip).takeWhile (fun l => !paraBreak l)).length)
                false
                (closeIf parts in_list
                  ++ ["        <p>" ++ inline_format (String.intercalate " "
                        (((lines.drop i).map pyStrip).takeWhile (fun l => !paraBreak l))) ++ "</p>"])

/-- `txt_to_html_content` from `blog/build.py`: split the stripped body
into lines and run the scanner; `none` when the Python loop would never
terminate. -/
def txt_to_html_content (body_text folder_name : String) : Option String :=
  (scanLoop folder_name (pySplitlines (pyStrip body_text))
      ((pySplitlines (pyStrip body_text)).length + 1) 0 false []).map
    (String.intercalate "\n")

example : txt_to_html_content "- a\n- b\n\n## Kraj" "post" =
    some ("        <ul>\n          <li>a</li>\n          <li>b</li>\n        </ul>\n"
      ++ "        <h2>Kraj</h2>") := by decide

example : txt_to_html_content "> a\n> b" "post" =
    some ("        <blockquote>\n          a b\n        </blockquote>") := by decide


/-! ### Dates (`format_date_hr`)

`datetime.strptime(date_str.strip(), "%Y-%m-%d")` accepts exactly four
digits for `%Y`, one or two digits in range for `%m` (`1[0-2]|0[1-9]|[1-9]`)
and `%d` (`3[01]|[12]\d|0[1-9]|[1-9]`), requires the whole string to be
consumed, and then validates the day against the month length and the year
against `MINYEAR = 1`; any violation raises `ValueError`, modelled as
`none`. -/

/-- The numeric value of a decimal digit character. -/
def digitVal (c : Char) : Nat := c.toNat - 48

/-- Gregorian leap year, as `datetime` uses it. -/
def isLeap (y : Nat) : Bool := y % 4 = 0 && (y % 100 ≠ 0 || y % 400 = 0)

/-- Days in a month, as `datetime` validates them. -/
def daysInMonth (y m : Nat) : Nat :=
  if m = 2 then (if isLeap y then 29 else 28)
  else if m = 4 || m = 6 || m = 9 || m = 11 then 30
  else 31

/-- The `%m` directive: one or two digits; two digits are taken when they
form `01`–`12`, otherwise a single digit `1`–`9` is taken (the regex
alternation `1[0-2]|0[1-9]|[1-9]`). -/
def parseMonthNum : List Char → Option (Nat × List Char)
  | [] => none
  | [c1] => if c1.isDigit && 1 ≤ digitVal c1 then some (digitVal c1, []) else none
  | c1 :: c2 :: rest =>
      if c1.isDigit && c2.isDigit then
        if 1 ≤ digitVal c1 * 10 + digitVal c2 && digitVal c1 * 10 + digitVal c2 ≤ 12 then
          some (digitVal c1 * 10 + digitVal c2, rest)
        else if 1 ≤ digitVal c1 then some (digitVal c1, c2 :: rest)
        else none
      else if c1.isDigit && 1 ≤ digitVal c1 then some (digitVal c1, c2 :: rest)
      else none

/-- The `%d` directive: like `%m` with range `01`–`31`
(`3[01]|[12]\d|0[1-9]|[1-9]`). -/
def parseDayNum : List Char → Option (Nat × List Char)
  | [] => none
  | [c1] => if c1.isDigit && 1 ≤ digitVal c1 then some (digitVal c1, []) else none
  | c1 :: c2 :: rest =>
      if c1.isDigit && c2.isDigit then
        if 1 ≤ digitVal c1 * 10 + digitVal c2 && digitVal c1 * 10 + digitVal c2 ≤ 31 then
          some (digitVal c1 * 10 + digitVal c2, rest)
        else if 1 ≤ digitVal c1 then some (digitVal c1, c2 :: rest)
        else none
      else if c1.isDigit && 1 ≤ digitVal c1 then some (digitVal c1, c2 :: rest)
      else none

/-- `strptime(s, "%Y-%m-%d")` followed by the `datetime` range checks:
`some (year, month, day)` exactly when the Python call succeeds. -/
def parseYMD : List Char → Option (Nat × Nat × Nat)
  | y1 :: y2 :: y3 :: y4 :: '-' :: rest =>
      if y1.isDigit && y2.isDigit && y3.isDigit && y4.isDigit then
        match parseMonthNum rest with
        | some (m, '-' :: rest2) =>
            match parseDayNum rest2 with
            | some (d, []) =>
                if 1 ≤ ((digitVal y1 * 10 + digitVal y2) * 10 + digitVal y3) * 10 + digitVal y4
                    && d ≤ daysInMonth
                      (((digitVal y1 * 10 + digitVal y2) * 10 + digitVal y3) * 10 + digitVal y4) m
                then some ((((digitVal y1 * 10 + digitVal y2) * 10 + digitVal y3) * 10
                    + digitVal y4, m, d))
                else none
            | _ => none
        | _ => none
      else none
  | _ => none

/-- The Croatian month names of `blog/build.py`. -/
def MONTHS_HR : List String :=
  ["siječnja", "veljače", "ožujka", "travnja", "svibnja", "lipnja",
   "srpnja", "kolovoza", "rujna", "listopada", "studenoga", "prosinca"]

/-- `format_date_hr` from `blog/build.py`: `2026-02-20` becomes
`20. veljače 2026.`; `none` models the `ValueError` the Python function
raises on anything `strptime`/`datetime` rejects. -/
def format_date_hr (date_str : String) : Option String :=
  (parseYMD (pyStrip date_str).data).map fun t =>
    toString t.2.2 ++ ". " ++ (MONTHS_HR.getD (t.2.1 - 1) "") ++ " " ++ toString t.1 ++ "."

example : format_date_hr "2026-02-20" = some "20. veljače 2026." := by decide

example : format_date_hr "banana" = none := by decide

example : format_date_hr "2026-02-30" = none := by decide

/-! ### `generate_html`

The fixed page chrome is reproduced verbatim from the Python multi-line
f-string template (literal doubled braces of the template become the
escaped braces below). -/

/-- The site base url. -/
def BASE_URL : String := "https://tenderatlas.hr"

/-- The hero block of the page, emitted when `HERO` is set. -/
def heroSectionHtml (hero_path title : String) : String :=
  "\n    <div class=\"blog-post-hero\">\n      <img src=\""
    ++ hero_path
    ++ "\" alt=\""
    ++ title
    ++ "\">\n    </div>\n"

/-- The full page template of `generate_html`, verbatim. -/
def pageHtml (title desc date tag hero_section hero_img_url date_hr slug content_html : String) : String :=
  "<!DOCTYPE html>\n<html lang=\"hr\">\n<head>\n  <meta charset=\"UTF-8\" />\n  <link rel=\"icon\" type=\"image/svg+xml\" href=\"../favicon.svg\">\n  <link rel=\"apple-touch-icon\" href=\"../img.png\">\n  <meta name=\"viewport\" content=\"width=device-width, initial-scale=1\" />\n  <title>"
    ++ title
    ++ " | TenderAtlas Blog</title>\n  <link rel=\"stylesheet\" href=\"../css/style.css\">\n  <link rel=\"stylesheet\" href=\"../css/blog.css\">\n  <link href=\"https://fonts.googleapis.com/css2?family=Inter:wght@300;400;600;700&display=swap\" rel=\"stylesheet\">\n\n  <meta name=\"description\" content=\""
    ++ desc
    ++ "\">\n  <link rel=\"canonical\" href=\""
    ++ BASE_URL
    ++ "/blog/"
    ++ slug
    ++ ".html\">\n  <meta name=\"robots\" content=\"index,follow\">\n\n  <meta property=\"og:site_name\" content=\"TenderAtlas Blog\">\n  <meta property=\"og:title\" content=\""
    ++ title
    ++ "\">\n  <meta property=\"og:description\" content=\""
    ++ desc
    ++ "\">\n  <meta property=\"og:type\" content=\"article\">\n  <meta property=\"og:url\" content=\""
    ++ BASE_URL
    ++ "/blog/"
    ++ slug
    ++ ".html\">\n  <meta property=\"og:image\" content=\""
    ++ hero_img_url
    ++ "\">\n  <meta property=\"og:locale\" content=\"hr_HR\">\n  <meta property=\"article:published_time\" content=\""
    ++ date
    ++ "\">\n  <meta property=\"article:author\" content=\"TenderAtlas\">\n  <meta name=\"twitter:card\" content=\"summary_large_image\">\n\n  <script type=\"application/ld+json\">\n  \x7b\n    \"@context\": \"https://schema.org\",\n    \"@type\": \"BlogPosting\",\n    \"headline\": \""
    ++ title
    ++ "\",\n    \"description\": \""
    ++ desc
    ++ "\",\n    \"image\": \""
    ++ hero_img_url
    ++ "\",\n    \"datePublished\": \""
    ++ date
    ++ "\",\n    \"dateModified\": \""
    ++ date
    ++ "\",\n    \"author\": \x7b\n      \"@type\": \"Organization\",\n      \"name\": \"TenderAtlas\",\n      \"url\": \""
    ++ BASE_URL
    ++ "/\"\n    \x7d,\n    \"publisher\": \x7b\n      \"@type\": \"Organization\",\n      \"name\": \"TenderAtlas\",\n      \"url\": \""
    ++ BASE_URL
    ++ "/\",\n      \"logo\": \""
    ++ BASE_URL
    ++ "/img.png\"\n    \x7d,\n    \"mainEntityOfPage\": \x7b\n      \"@type\": \"WebPage\",\n      \"@id\": \""
    ++ BASE_URL
    ++ "/blog/"
    ++ slug
    ++ ".html\"\n    \x7d,\n    \"inLanguage\": \"hr\"\n  \x7d\n  </script>\n</head>\n<body class=\"blog-page\">\n\n  <div class=\"scroll-progress\" id=\"scrollProgress\"></div>\n\n  <nav class=\"fixed-nav\">\n    <div class=\"nav-container\">\n      <a href=\"../\" class=\"nav-logo\" aria-label=\"TenderAtlas\">\n        <svg viewBox=\"0 0 1600 500\" xmlns=\"http://www.w3.org/2000/svg\" class=\"logo-svg\">\n          <defs>\n            <linearGradient id=\"metalBlue\" x1=\"0%\" y1=\"0%\" x2=\"100%\" y2=\"100%\">\n              <stop offset=\"0%\" stop-color=\"#4a90c4\"/>\n              <stop offset=\"40%\" stop-color=\"#6bb5e0\"/>\n              <stop offset=\"60%\" stop-color=\"#4a90c4\"/>\n              <stop offset=\"100%\" stop-color=\"#b5ffe1\"/>\n            </linearGradient>\n          </defs>\n          <polygon points=\"300,150 390,200 390,300 300,350 210,300 210,200\" fill=\"none\" stroke=\"url(#metalBlue)\" stroke-width=\"18\" stroke-linejoin=\"round\"/>\n          <text x=\"450\" y=\"305\" font-family=\"Segoe UI, Helvetica, Arial, sans-serif\" font-size=\"160\" fill=\"url(#metalBlue)\" letter-spacing=\"1\">\n            <tspan font-weight=\"700\">Tender</tspan><tspan font-weight=\"500\">Atlas</tspan>\n          </text>\n        </svg>\n      </a>\n      <button class=\"hamburger\" id=\"hamburger\" aria-label=\"Menu\" aria-expanded=\"false\"><span></span><span></span><span></span></button>\n      <div class=\"nav-links\" id=\"navLinks\">\n        <a href=\"../#demo-alata\" class=\"nav-link\">Naše rješenje</a>\n        <a href=\"../#pretplate\" class=\"nav-link\">Moduli i pretplate</a>\n        <a href=\"./\" class=\"nav-link active\">Blog</a>\n        <a href=\"../#kontakt\" class=\"nav-link\">Kontaktiraj nas</a>\n      </div>\n      <div class=\"nav-right\">\n        <a href=\"https://app.tenderatlas.hr\" class=\"user-login-link\">\n          <svg class=\"user-icon\" viewBox=\"0 0 24 24\" fill=\"none\" xmlns=\"http://www.w3.org/2000/svg\"><circle cx=\"12\" cy=\"8\" r=\"4\" stroke=\"currentColor\" stroke-width=\"2\"/><path d=\"M6 21C6 17.134 8.686 14 12 14C15.314 14 18 17.134 18 21\" stroke=\"currentColor\" stroke-width=\"2\" stroke-linecap=\"round\"/></svg>\n          <span>Prijava</span>\n        </a>\n      </div>\n    </div>\n  </nav>\n\n  <article class=\"blog-post\">\n"
    ++ hero_section
    ++ "\n    <div class=\"blog-post-wrap\">\n      <nav class=\"blog-breadcrumb\" aria-label=\"Breadcrumb\">\n        <a href=\"../\">Početna</a> <span>/</span>\n        <a href=\"./\">Blog</a> <span>/</span>\n        <span>"
    ++ title
    ++ "</span>\n      </nav>\n\n      <header class=\"blog-post-header\">\n        <div class=\"blog-card-meta\">\n          <time datetime=\""
    ++ date
    ++ "\">"
    ++ date_hr
    ++ "</time>\n          <span class=\"blog-tag\">"
    ++ tag
    ++ "</span>\n        </div>\n        <h1>"
    ++ title
    ++ "</h1>\n      </header>\n\n      <div class=\"blog-content\">\n"
    ++ content_html
    ++ "\n      </div>\n\n      <div class=\"blog-cta\">\n        <h3>Želite dublje analize javne nabave?</h3>\n        <p>Isprobajte TenderAtlas platformu besplatno.</p>\n        <a href=\"../#kontakt\" class=\"blog-cta-btn\">Isprobaj besplatno</a>\n      </div>\n\n      <div class=\"blog-back\">\n        <a href=\"./\">← Svi članci</a>\n      </div>\n    </div>\n  </article>\n\n  <footer class=\"site-footer\">\n    <div class=\"footer-inner\">\n      <div class=\"footer-left\">\n        <svg viewBox=\"195 140 1250 225\" xmlns=\"http://www.w3.org/2000/svg\" class=\"footer-logo\">\n          <defs><linearGradient id=\"metalBlueFooter\" x1=\"0%\" y1=\"0%\" x2=\"100%\" y2=\"100%\"><stop offset=\"0%\" stop-color=\"#4a90c4\"/><stop offset=\"40%\" stop-color=\"#6bb5e0\"/><stop offset=\"60%\" stop-color=\"#4a90c4\"/><stop offset=\"100%\" stop-color=\"#b5ffe1\"/></linearGradient></defs>\n          <polygon points=\"300,150 390,200 390,300 300,350 210,300 210,200\" fill=\"none\" stroke=\"url(#metalBlueFooter)\" stroke-width=\"18\" stroke-linejoin=\"round\"/>\n          <text x=\"450\" y=\"305\" font-family=\"Segoe UI, Helvetica, Arial, sans-serif\" font-size=\"160\" fill=\"url(#metalBlueFooter)\" letter-spacing=\"1\"><tspan font-weight=\"700\">Tender</tspan><tspan font-weight=\"500\">Atlas</tspan></text>\n        </svg>\n      </div>\n      <div class=\"footer-center\">\n        <a href=\"../#demo-alata\">Naše rješenje</a>\n        <a href=\"../#pretplate\">Moduli i pretplate</a>\n        <a href=\"../#kontakt\">Kontakt</a>\n        <a href=\"./\">Blog</a>\n        <a href=\"../opci-uvjeti.html\">Opći Uvjeti Korištenja</a>\n        <a href=\"mailto:info@kti.hr\">info@kti.hr</a>\n      </div>\n    </div>\n    <div class=\"footer-bottom\"><p>&copy; 2026 Sva prava zadržana</p></div>\n  </footer>\n\n  <script src=\"https://unpkg.com/lenis@1.1.18/dist/lenis.min.js\"></script>\n  <script src=\"../js/main.js\"></script>\n</body>\n</html>\n"

/-- `generate_html` from `blog/build.py`: resolve the metadata defaults,
localize the date (the only failing step, raising on a malformed `DATUM`),
build the hero section when `HERO` is set, and interpolate the page
template. -/
def generate_html (meta : List (String × String)) (content_html folder_name : String) :
    Option String :=
  (format_date_hr (dictGetD meta "DATUM" "2026-01-01")).map fun date_hr =>
    pageHtml (dictGetD meta "NASLOV" "Blog Post") (dictGetD meta "OPIS" "")
      (dictGetD meta "DATUM" "2026-01-01") (dictGetD meta "KATEGORIJA" "Članak")
      (if dictGetD meta "HERO" "" ≠ "" then
        heroSectionHtml (folder_name ++ "/" ++ dictGetD meta "HERO" "")
          (dictGetD meta "NASLOV" "Blog Post")
       else "")
      (if dictGetD meta "HERO" "" ≠ "" then
        BASE_URL ++ "/blog/" ++ folder_name ++ "/" ++ dictGetD meta "HERO" ""
       else BASE_URL ++ "/img.png")
      date_hr folder_name content_html

/-! ### Thumbnails and the per-folder pipeline of `build_blog` -/

/-- The recognized image extensions. -/
def IMAGE_EXTENSIONS : List String := [".png", ".jpg", ".jpeg", ".webp", ".gif", ".svg"]

/-- Python `str.lower()` (ASCII). -/
def pyLower (s : String) : String := ⟨s.data.map Char.toLower⟩

/-- The suffix of a path component as `pathlib` computes it: the part of
the name from its last dot, empty when the dot is absent, leading, or
trailing. -/
def pathSuffix (name : String) : String :=
  if (name.data.reverse.takeWhile (fun c => c ≠ '.')).length = name.data.length then ""
  else if name.data.length - 1 - (name.data.reverse.takeWhile (fun c => c ≠ '.')).length = 0 then ""
  else if (name.data.reverse.takeWhile (fun c => c ≠ '.')).length = 0 then ""
  else ⟨name.data.drop
    (name.data.length - 1 - (name.data.reverse.takeWhile (fun c => c ≠ '.')).length)⟩

/-- `find_first_image` from `blog/build.py`: the first entry of the sorted
directory listing whose lowercased suffix is a recognized image extension,
or the empty string.  The model receives the sorted listing as data. -/
def find_first_image (images : List String) : String :=
  match images.find? (fun f => IMAGE_EXTENSIONS.contains (pyLower (pathSuffix f))) with
  | some f => f
  | none => ""

example : pathSuffix "hero.PNG" = ".PNG" := by decide

example : find_first_image ["notes.txt", "b.webp", "a.png"] = "b.webp" := by decide

/-- A record of `posts.json`.  Records read back from a persisted catalog
may lack keys; the `.get(key, dflt)` access the script uses is modelled by
storing the default for an absent key. -/
structure Post where
  file : String
  title : String
  description : String
  date : String
  image : String
  tag : String
deriving DecidableEq, Repr

/-- One post folder as `build_blog` sees it after its directory filters: a
subdirectory of `blog/` whose name does not start with `_` or `.`, is not
a reserved name, and which contains a `sadrzaj.txt` (folders failing those
tests are never visited and never enter `generated_slugs`, so they do not
appear here).  `images` is the sorted directory listing used for the
thumbnail. -/
structure Folder where
  name : String
  sadrzaj : String
  images : List String
deriving DecidableEq, Repr

/-- The outcome of the body of the folder loop for one folder: skipped
with a warning, built (an output file and a catalog record), or failed —
the Python run never gets past this folder (an uncaught `ValueError` from
`format_date_hr`, or a `txt_to_html_content` call that never returns). -/
inductive FolderResult where
  | skipped
  | built (post : Post) (html : String)
  | failed
deriving DecidableEq, Repr

/-- The body of the folder loop of `build_blog`: split at the first `---`
(skip when absent), parse the header (skip when `NASLOV` is missing or
empty), scan the body, generate the page, pick the thumbnail, and produce
the catalog record. -/
def processFolder (f : Folder) : FolderResult :=
  match splitFirst "---" f.sadrzaj with
  | none => .skipped
  | some (header_part, body_part) =>
      if dictGetD (parse_metadata header_part) "NASLOV" "" = "" then .skipped
      else
        match txt_to_html_content body_part f.name with
        | none => .failed
        | some content_html =>
          match generate_html (parse_metadata header_part) content_html f.name with
          | none => .failed
          | some html =>
              .built
                { file := f.name ++ ".html"
                  title := dictGetD (parse_metadata header_part) "NASLOV" ""
                  description := dictGetD (parse_metadata header_part) "OPIS" ""
                  date := dictGetD (parse_metadata header_part) "DATUM" "2026-01-01"
                  image :=
                    if dictGetD (parse_metadata header_part) "HERO" "" ≠ "" then
                      f.name ++ "/" ++ dictGetD (parse_metadata header_part) "HERO" ""
                    else if find_first_image f.images ≠ "" then
                      f.name ++ "/" ++ find_first_image f.images
                    else "../img.png"
                  tag := dictGetD (parse_metadata header_part) "KATEGORIJA" "Članak" }
                html

/-- The folder loop of `build_blog`: accumulates the batch records, the
`generated_slugs` set (every visited folder, added before the skip
checks), and the written output files; a failing folder aborts the run. -/
def buildFold : List Folder → List Post → List String → List (String × String) →
    Except String (List Post × List String × List (String × String))
  | [], posts, slugs, outs => .ok (posts, slugs, outs)
  | f :: rest, posts, slugs, outs =>
      match processFolder f with
      | .skipped => buildFold rest posts (slugs ++ [f.name]) outs
      | .failed => .error f.name
      | .built p html =>
          buildFold rest (posts ++ [p]) (slugs ++ [f.name]) (outs ++ [(f.name ++ ".html", html)])

/-- The slug a persisted record is keyed by during the merge:
`ep.get("file", "").replace(".html", "")`. -/
def ep_slug (p : Post) : String := pyReplace p.file ".html" ""

/-- Python string comparison (code-point lexicographic `<=`), used by the
sort key. -/
def pyLeChars : List Char → List Char → Bool
  | [], _ => true
  | _ :: _, [] => false
  | a :: as, b :: bs =>
      if a.toNat < b.toNat then true
      else if b.toNat < a.toNat then false
      else pyLeChars as bs

/-- Python `a <= b` on strings. -/
def pyLe (a b : String) : Bool := pyLeChars a.data b.data

theorem pyLeChars_refl : ∀ l : List Char, pyLeChars l l = true := by
  intro l
  induction l with
  | nil => rfl
  | cons a as ih => simp [pyLeChars, ih]

theorem pyLe_refl (a : String) : pyLe a a = true := pyLeChars_refl a.data

theorem pyLe_of_eq {a b : String} (h : a = b) : pyLe a b = true := by
  subst h; exact pyLe_refl a

theorem pyLeChars_total : ∀ a b : List Char,
    pyLeChars a b = false → pyLeChars b a = true := by
  intro a
  induction a with
  | nil => intro b h; cases h
  | cons x as ih =>
    intro b h
    cases b with
    | nil => rfl
    | cons y bs =>
      rw [pyLeChars] at h
      by_cases h1 : x.toNat < y.toNat
      · rw [if_pos h1] at h; cases h
      · rw [if_neg h1] at h
        by_cases h2 : y.toNat < x.toNat
        · rw [pyLeChars, if_pos h2]
        · rw [if_neg h2] at h
          rw [pyLeChars, if_neg (by omega : ¬y.toNat < x.toNat),
            if_neg (by omega : ¬x.toNat < y.toNat)]
          exact ih bs h

theorem pyLe_total {a b : String} (h : pyLe a b = false) : pyLe b a = true :=
  pyLeChars_total a.data b.data h

theorem pyLeChars_trans : ∀ a b c : List Char,
    pyLeChars a b = true → pyLeChars b c = true → pyLeChars a c = true := by
  intro a
  induction a with
  | nil => intro b c _ _; rfl
  | cons x as ih =>
    intro b c hab hbc
    cases b with
    | nil => cases hab
    | cons y bs =>
      cases c with
      | nil => cases hbc
      | cons z cs =>
        rw [pyLeChars] at hab hbc ⊢
        by_cases h1 : x.toNat < y.toNat <;> by_cases h2 : y.toNat < z.toNat
        · rw [if_pos (by omega : x.toNat < z.toNat)]
        · rw [if_neg h2] at hbc
          by_cases h3 : z.toNat < y.toNat
          · rw [if_pos h3] at hbc; cases hbc
          · rw [if_pos (by omega : x.toNat < z.toNat)]
        · rw [if_neg h1] at hab
          by_cases h3 : y.toNat < x.toNat
          · rw [if_pos h3] at hab; cases hab
          · rw [if_pos (by omega : x.toNat < z.toNat)]
        · rw [if_neg h1] at hab
          by_cases h3 : y.toNat < x.toNat
          · rw [if_pos h3] at hab; cases hab
          · rw [if_neg h3] at hab
            rw [if_neg h2] at hbc
            by_cases h4 : z.toNat < y.toNat
            · rw [if_pos h4] at hbc; cases hbc
            · rw [if_neg h4] at hbc
              rw [if_neg (by omega : ¬x.toNat < z.toNat),
                if_neg (by omega : ¬z.toNat < x.toNat)]
              exact ih bs cs hab hbc

theorem pyLe_trans {a b c : String} (hab : pyLe a b = true) (hbc : pyLe b c = true) :
    pyLe a c = true :=
  pyLeChars_trans a.data b.data c.data hab hbc

/-- Stable insertion of a record into a date-descending list: the record
goes before the first strictly older record and after every record of the
same or newer date already present. -/
def sortInsert (p : Post) : List Post → List Post
  | [] => [p]
  | q :: qs => if pyLe q.date p.date then p :: q :: qs else q :: sortInsert p qs

/-- The merge sort call `all_posts.sort(key=lambda p: p.get("date", ""),
reverse=True)`: Python's sort is stable, and every stable date-descending
sort computes the same list, here by right-to-left insertion (so earlier
records end up before later records of equal date). -/
def sortByDateDesc (l : List Post) : List Post := l.foldr sortInsert []

/-- `build_blog` from `blog/build.py` (its pure core): run the folder loop
over the visited folders, keep every persisted record whose slug was not
visited, merge and sort.  Returns the written `<slug>.html` files and the
new catalog, or the folder at which the Python run fails.  A missing or
malformed `posts.json` enters as `existing_posts = []`. -/
def build_blog (folders : List Folder) (existing_posts : List Post) :
    Except String (List (String × String) × List Post) :=
  match buildFold folders [] [] [] with
  | .error e => .error e
  | .ok (posts, generated_slugs, outs) =>
      .ok (outs,
        sortByDateDesc (posts ++ existing_posts.filter
          (fun ep => !(generated_slugs.contains (ep_slug ep)))))

end Blog

namespace Blog

/-! ### Claim C6: `parse_metadata` -/

theorem dictGet?_dictSet (m : List (String × String)) (k' v k : String) :
    dictGet? (dictSet m k' v) k = if k' = k then some v else dictGet? m k := by
  induction m with
  | nil => simp [dictSet, dictGet?]
  | cons kv rest ih =>
    obtain ⟨k0, v0⟩ := kv
    rcases eq_or_ne k0 k' with rfl | h0
    · rcases eq_or_ne k0 k with rfl | hk
      · simp [dictSet, dictGet?]
      · simp [dictSet, dictGet?, hk]
    · rcases eq_or_ne k0 k with rfl | hk
      · simp [dictSet, dictGet?, h0, Ne.symm h0]
      · simp [dictSet, dictGet?, h0, hk, ih]

/-- The value one header line contributes for key `k`: split the stripped
line at its first `:`, strip both sides, uppercase the key. -/
def lineValue (k : String) (line : String) : Option String :=
  match splitFirstChars [':'] (pyStrip line).data with
  | some p => if pyUpper (pyStrip ⟨p.1⟩) = k then some (pyStrip ⟨p.2⟩) else none
  | none => none

theorem dictGet?_parseStep (m : List (String × String)) (line k : String) :
    dictGet? (parseStep m line) k = (lineValue k line).or (dictGet? m k) := by
  unfold lineValue parseStep
  match splitFirstChars [':'] (pyStrip line).data with
  | some p =>
    simp only [dictGet?_dictSet]
    by_cases h : pyUpper (pyStrip ⟨p.1⟩) = k
    · simp [h]
    · simp [h]
  | none => simp

theorem parse_metadata_foldl (lines : List String) (m : List (String × String)) (k : String) :
    dictGet? (lines.foldl parseStep m) k
      = (lines.reverse.findSome? (lineValue k)).or (dictGet? m k) := by
  induction lines generalizing m with
  | nil => simp
  | cons line rest ih =>
    simp only [List.foldl_cons, List.reverse_cons, List.findSome?_append, ih,
      dictGet?_parseStep]
    match hrest : rest.reverse.findSome? (lineValue k) with
    | some v => simp
    | none =>
      cases hl : lineValue k line <;> simp [List.findSome?, hl]

/-- Claim C6 — `parse_metadata` builds its mapping by splitting every line
that contains a `:` at the first `:`, trimming both sides, storing the
uppercased key, later lines overwriting earlier ones; it never fails (it
is a total function), and looking any key up returns the value of the
last line that defines it — in particular a header whose last
NASLOV-defining line is `NASLOV: X` maps `NASLOV` to `X` trimmed. -/
theorem parse_metadata_last_wins (header_text k : String) :
    dictGet? (parse_metadata header_text) k =
      (pySplitlines (pyStrip header_text)).reverse.findSome? (lineValue k) := by
  unfold parse_metadata
  rw [parse_metadata_foldl]
  simp [dictGet?]

example : dictGet? (parse_metadata " NASLOV: A\nOPIS: o\nnaslov:  B  ") "NASLOV"
    = some "B" := by decide

example : dictGet? (parse_metadata "bez dvotočke\nDATUM: 2026-01-02") "DATUM"
    = some "2026-01-02" := by decide

end Blog

namespace Blog

/-! ### Claim C1: the scanner sticks on a malformed image directive -/

/-- Claim C1 (refuted by the code): on the body `[SLIKA: x.png` — a line
that looks like an image directive but fails the full image pattern — the
scanner never terminates: the paragraph lookahead breaks immediately on
the bare `[SLIKA:` prefix, consumes no line, and the cursor never
advances, so no amount of fuel completes the loop and
`txt_to_html_content` diverges (modelled as `none`). -/
theorem scanner_diverges_on_unclosed_image_directive :
    (∀ (fuel : Nat) (parts : List String),
        scanLoop "post" ["[SLIKA: x.png"] fuel 0 false parts = none) ∧
    txt_to_html_content "[SLIKA: x.png" "post" = none := by
  constructor
  · intro fuel
    induction fuel with
    | zero => intro parts; rfl
    | succ n ih => intro parts; exact ih (parts ++ ["        <p></p>"])
  · rfl

/-! ### Claim C3: a malformed `DATUM` aborts the whole run -/

/-- Claim C3 (refuted by the code): a folder whose `sadrzaj.txt` carries a
well-formed header and separator but a `DATUM` value `strptime` rejects
makes `format_date_hr` raise an uncaught `ValueError`, aborting the whole
run instead of skipping the folder. -/
theorem build_aborts_on_malformed_datum :
    format_date_hr "banana" = none ∧
    build_blog [⟨"bad", "NASLOV: T\nDATUM: banana\n---\nText", []⟩] []
      = .error "bad" := by
  exact ⟨rfl, rfl⟩

/-! ### Claim C4: the separator check is a substring test, not a line test -/

theorem splitFirstChars_none_iff (sep : List Char) (l : List Char) :
    splitFirstChars sep l = none ↔ containsSubChars sep l = false := by
  induction l with
  | nil =>
    by_cases h : sep.isEmpty <;> simp [splitFirstChars, containsSubChars, h]
  | cons c rest ih =>
    by_cases hp : sep.isPrefixOf (c :: rest)
    · simp [splitFirstChars, containsSubChars, hp]
    · simp only [splitFirstChars, if_neg hp, containsSubChars,
        Bool.or_eq_false_iff]
      rw [Option.map_eq_none']
      simp [ih, hp]

theorem splitFirst_none_iff (sep s : String) :
    splitFirst sep s = none ↔ containsSub sep s = false := by
  unfold splitFirst containsSub
  rw [Option.map_eq_none']
  exact splitFirstChars_none_iff sep.data s.data

/-- Claim C4, counterexample: the file `NASLOV: a---b` has no line
consisting of `---`, yet the folder is not skipped — the separator test is
`"---" in raw`, a substring test that fires inside the line, and the
folder builds an output file and a catalog record. -/
theorem separator_substring_not_line_cex :
    ((pySplitlines "NASLOV: a---b").all (fun l => l ≠ "---")) = true ∧
    processFolder ⟨"p", "NASLOV: a---b", []⟩ ≠ FolderResult.skipped ∧
    (build_blog [⟨"p", "NASLOV: a---b", []⟩] []).toOption.map
        (fun r => r.2.map Post.file) = some ["p.html"] := by
  refine ⟨by decide, by decide, by decide⟩

/-- Claim C4 as amended: a folder is skipped exactly when its
`sadrzaj.txt` contains no occurrence of the substring `---` anywhere (not:
no line consisting of `---`), or it does contain one and the header
parsed from the text before the first occurrence leaves `NASLOV` missing
or empty. -/
theorem folder_skipped_iff (f : Folder) :
    processFolder f = .skipped ↔
      (containsSub "---" f.sadrzaj = false ∨
       ∃ hb, splitFirst "---" f.sadrzaj = some hb ∧
         dictGetD (parse_metadata hb.1) "NASLOV" "" = "") := by
  rcases hsplit : splitFirst "---" f.sadrzaj with _ | ⟨hdr, body⟩
  · have hskip : processFolder f = .skipped := by
      unfold processFolder; rw [hsplit]
    simp only [hskip, true_iff]
    exact Or.inl ((splitFirst_none_iff "---" f.sadrzaj).mp hsplit)
  · by_cases hn : dictGetD (parse_metadata hdr) "NASLOV" "" = ""
    · have hskip : processFolder f = .skipped := by
        unfold processFolder; rw [hsplit]; simp [hn]
      simp only [hskip, true_iff]
      exact Or.inr ⟨(hdr, body), rfl, hn⟩
    · have hns : processFolder f ≠ .skipped := by
        unfold processFolder
        rw [hsplit]
        simp only [hn, if_false]
        split
        · simp
        · split <;> simp
      simp only [hns, false_iff]
      intro h
      rcases h with h | ⟨hb', hsome, hnas⟩
      · have hnone := (splitFirst_none_iff "---" f.sadrzaj).mpr h
        rw [hnone] at hsplit
        cases hsplit
      · cases hsome
        exact hn hnas


/-! ### Claim C2: the catalog merge -/

/-- The batch records of a run: one per folder whose processing reaches
`posts.append`. -/
def batchRecords (folders : List Folder) : List Post :=
  folders.filterMap fun f =>
    match processFolder f with
    | .built p _ => some p
    | _ => none

/-- The output files of a run: one per built folder. -/
def outFiles (folders : List Folder) : List (String × String) :=
  folders.filterMap fun f =>
    match processFolder f with
    | .built _ html => some (f.name ++ ".html", html)
    | _ => none

/-- Sorted by date descending (lexicographic string comparison). -/
def dateSortedDesc : List Post → Prop :=
  List.Chain' (fun p q => pyLe q.date p.date = true)

theorem buildFold_ok (folders : List Folder) :
    ∀ (posts : List Post) (slugs : List String) (outs : List (String × String))
      {res : List Post × List String × List (String × String)},
      buildFold folders posts slugs outs = .ok res →
      res = (posts ++ batchRecords folders, slugs ++ folders.map Folder.name,
             outs ++ outFiles folders) := by
  induction folders with
  | nil =>
    intro posts slugs outs res h
    cases h
    simp [batchRecords, outFiles]
  | cons f rest ih =>
    intro posts slugs outs res h
    unfold buildFold at h
    match hp : processFolder f with
    | .skipped =>
      rw [hp] at h
      rw [ih _ _ _ h]
      simp [batchRecords, outFiles, List.filterMap_cons, hp]
    | .failed =>
      rw [hp] at h
      cases h
    | .built p html =>
      rw [hp] at h
      rw [ih _ _ _ h]
      simp [batchRecords, outFiles, List.filterMap_cons, hp]

theorem head?_sortInsert (p : Post) (l : List Post) :
    (sortInsert p l).head? = some p ∨ (sortInsert p l).head? = l.head? := by
  cases l with
  | nil => left; rfl
  | cons q qs =>
    by_cases hq : pyLe q.date p.date = true
    · left; simp [sortInsert, hq]
    · right; simp [sortInsert, hq]

theorem dateSortedDesc_sortInsert (p : Post) {l : List Post}
    (h : dateSortedDesc l) : dateSortedDesc (sortInsert p l) := by
  induction l with
  | nil => simp [sortInsert, dateSortedDesc]
  | cons q qs ih =>
    by_cases hq : pyLe q.date p.date = true
    · simp only [sortInsert, if_pos hq]
      exact List.Chain'.cons hq h
    · simp only [sortInsert, if_neg hq]
      refine List.Chain'.cons' (ih (List.Chain'.tail h)) ?_
      intro y hy
      rcases head?_sortInsert p qs with hh | hh
      · rw [hh] at hy
        cases hy
        exact pyLe_total (Bool.not_eq_true _ ▸ eq_false_of_ne_true hq)
      · rw [hh] at hy
        cases qs with
        | nil => cases hy
        | cons q' qs' =>
          cases hy
          exact (List.chain'_cons.mp h).1

theorem dateSortedDesc_sortByDateDesc (l : List Post) :
    dateSortedDesc (sortByDateDesc l) := by
  induction l with
  | nil => simp [sortByDateDesc, dateSortedDesc]
  | cons p l ih => exact dateSortedDesc_sortInsert p ih

theorem filter_date_sortInsert (p : Post) (d : String) (m : List Post) :
    (sortInsert p m).filter (fun x => x.date = d) =
      if p.date = d then p :: m.filter (fun x => x.date = d)
      else m.filter (fun x => x.date = d) := by
  induction m with
  | nil => by_cases hp : p.date = d <;> simp [sortInsert, hp]
  | cons q qs ih =>
    by_cases hq : pyLe q.date p.date = true
    · have hred : sortInsert p (q :: qs) = p :: q :: qs := by
        simp only [sortInsert]
        rw [if_pos hq]
      rw [hred]
      by_cases hpd : p.date = d <;> simp [List.filter_cons, hpd]
    · have hred : sortInsert p (q :: qs) = q :: sortInsert p qs := by
        simp only [sortInsert]
        rw [if_neg hq]
      rw [hred]
      by_cases hpd : p.date = d <;> by_cases hqd : q.date = d
      · exact absurd (pyLe_of_eq (hqd.trans hpd.symm)) hq
      · simp [List.filter_cons, hpd, hqd, ih]
      · simp [List.filter_cons, hpd, hqd, ih]
      · simp [List.filter_cons, hpd, hqd, ih]

theorem filter_date_sortByDateDesc (l : List Post) (d : String) :
    (sortByDateDesc l).filter (fun x => x.date = d) = l.filter (fun x => x.date = d) := by
  induction l with
  | nil => rfl
  | cons p l ih =>
    show (sortInsert p (sortByDateDesc l)).filter (fun x => x.date = d) = _
    rw [filter_date_sortInsert]
    by_cases hp : p.date = d <;> simp [hp, ih]

/-- Modelled from the spec (§4.5 CatalogMerger): the claim's merge, whose
`G` is the set of slugs of the records in the new batch (not of folders
merely visited): batch records followed by the persisted records whose
slug is outside `G`, stably sorted by date descending. -/
def specMergeByBatchSlugs (batch persisted : List Post) : List Post :=
  sortByDateDesc (batch ++ persisted.filter
    (fun ep => !((batch.map ep_slug).contains (ep_slug ep))))

/-- Claim C2, counterexample: a folder that is visited but skipped (its
`sadrzaj.txt` has no separator) generates no batch record, yet its slug
still enters `generated_slugs`, so the code drops the persisted
`legacy-post` record — while the claim (G = slugs of the batch records)
keeps it. -/
theorem merge_drops_skipped_slug_cex :
    build_blog [⟨"legacy-post", "no separator here", []⟩]
        [⟨"legacy-post.html", "L", "", "2025-01-01", "x", "t"⟩]
      = .ok ([], []) ∧
    specMergeByBatchSlugs []
        [⟨"legacy-post.html", "L", "", "2025-01-01", "x", "t"⟩]
      = [⟨"legacy-post.html", "L", "", "2025-01-01", "x", "t"⟩] ∧
    ([] : List Post) ≠ [⟨"legacy-post.html", "L", "", "2025-01-01", "x", "t"⟩] := by
  refine ⟨rfl, by decide, by decide⟩

/-- Claim C2 as amended: `G` is the set of slugs of every folder the loop
visits (a folder with a `sadrzaj.txt`, even when it is skipped for a
missing separator or title), not only of the records in the new batch.
With that `G`, a successful run's catalog is exactly the batch records
followed by the persisted records whose slug is outside `G`, stably
sorted by date descending: the output is the stable descending sort of
that concatenation, it is sorted, and the records of any fixed date
appear in exactly their order in the concatenation (so batch records
precede carried-over ones of equal date). -/
theorem build_blog_merge (folders : List Folder) (existing : List Post)
    (outs : List (String × String)) (cat : List Post)
    (h : build_blog folders existing = .ok (outs, cat)) :
    cat = sortByDateDesc (batchRecords folders ++ existing.filter
        (fun ep => !((folders.map Folder.name).contains (ep_slug ep)))) ∧
    dateSortedDesc cat ∧
    (∀ d, cat.filter (fun p => p.date = d) =
      (batchRecords folders ++ existing.filter
        (fun ep => !((folders.map Folder.name).contains (ep_slug ep)))).filter
        (fun p => p.date = d)) := by
  unfold build_blog at h
  match hb : buildFold folders [] [] [] with
  | .error e => rw [hb] at h; cases h
  | .ok res =>
    rw [hb] at h
    obtain ⟨P, S, O⟩ := res
    have hres := buildFold_ok folders [] [] [] hb
    simp only [List.nil_append, Prod.mk.injEq] at hres
    obtain ⟨hP, hS, hO⟩ := hres
    subst hP hS hO
    simp only [Except.ok.injEq, Prod.mk.injEq] at h
    obtain ⟨rfl, rfl⟩ := h
    refine ⟨rfl, dateSortedDesc_sortByDateDesc _, fun d => filter_date_sortByDateDesc _ d⟩

/-- Witness for the amended C2 at a concrete run: one visited-but-skipped
folder and one persisted record whose slug was not visited. -/
theorem build_blog_merge_witness :
    build_blog [⟨"s", "no separator", []⟩]
        [⟨"old.html", "O", "", "2024-01-01", "i", "t"⟩]
      = .ok ([], [⟨"old.html", "O", "", "2024-01-01", "i", "t"⟩]) ∧
    (([⟨"old.html", "O", "", "2024-01-01", "i", "t"⟩] : List Post) =
      sortByDateDesc (batchRecords [⟨"s", "no separator", []⟩]
        ++ [(⟨"old.html", "O", "", "2024-01-01", "i", "t"⟩ : Post)].filter
          (fun ep => !(([⟨"s", "no separator", []⟩] : List Folder).map Folder.name).contains
            (ep_slug ep))) ∧
    dateSortedDesc [⟨"old.html", "O", "", "2024-01-01", "i", "t"⟩] ∧
    (∀ d, ([(⟨"old.html", "O", "", "2024-01-01", "i", "t"⟩ : Post)]).filter
        (fun p => p.date = d) =
      (batchRecords [⟨"s", "no separator", []⟩]
        ++ [(⟨"old.html", "O", "", "2024-01-01", "i", "t"⟩ : Post)].filter
          (fun ep => !(([⟨"s", "no separator", []⟩] : List Folder).map Folder.name).contains
            (ep_slug ep))).filter (fun p => p.date = d))) :=
  ⟨rfl, build_blog_merge [⟨"s", "no separator", []⟩]
    [⟨"old.html", "O", "", "2024-01-01", "i", "t"⟩] []
    [⟨"old.html", "O", "", "2024-01-01", "i", "t"⟩] rfl⟩

end Blog

namespace Blog

/-! ### Claim C5: idempotence of a re-run -/

theorem sortInsert_eq_cons {p : Post} {l : List Post}
    (h : ∀ y ∈ l.head?, pyLe y.date p.date = true) : sortInsert p l = p :: l := by
  cases l with
  | nil => rfl
  | cons q qs =>
    simp only [sortInsert]
    rw [if_pos (h q rfl)]

theorem sortByDateDesc_of_sorted {l : List Post} (h : dateSortedDesc l) :
    sortByDateDesc l = l := by
  induction l with
  | nil => rfl
  | cons p l ih =>
    show sortInsert p (sortByDateDesc l) = p :: l
    rw [ih (List.Chain'.tail h)]
    refine sortInsert_eq_cons ?_
    intro y hy
    cases l with
    | nil => cases hy
    | cons q qs =>
      cases hy
      exact (List.chain'_cons.mp h).1

theorem sortByDateDesc_append_sort (A B : List Post) :
    sortByDateDesc (A ++ sortByDateDesc B) = sortByDateDesc (A ++ B) := by
  induction A with
  | nil => exact sortByDateDesc_of_sorted (dateSortedDesc_sortByDateDesc B)
  | cons a A ih =>
    show sortInsert a (sortByDateDesc (A ++ sortByDateDesc B)) = _
    rw [ih]
    rfl

theorem date_le_head_of_sorted : ∀ {q : Post} {qs : List Post},
    dateSortedDesc (q :: qs) → ∀ x ∈ q :: qs, pyLe x.date q.date = true := by
  intro q qs
  induction qs generalizing q with
  | nil =>
    intro _ x hx
    rcases List.mem_cons.mp hx with rfl | hx'
    · exact pyLe_refl _
    · cases hx'
  | cons q' qs' ih =>
    intro h x hx
    rcases List.mem_cons.mp hx with rfl | hx'
    · exact pyLe_refl _
    · exact pyLe_trans (ih (List.Chain'.tail h) x hx') (List.chain'_cons.mp h).1

theorem filter_sortInsert_of_sorted (pr : Post → Bool) (p : Post) :
    ∀ {m : List Post}, dateSortedDesc m →
      (sortInsert p m).filter pr =
        if pr p then sortInsert p (m.filter pr) else m.filter pr := by
  intro m
  induction m with
  | nil =>
    intro _
    by_cases hp : pr p <;> simp [sortInsert, List.filter_cons, hp]
  | cons q qs ih =>
    intro hm
    by_cases hq : pyLe q.date p.date = true
    · have hred : sortInsert p (q :: qs) = p :: q :: qs := by
        simp only [sortInsert]; rw [if_pos hq]
      rw [hred]
      by_cases hp : pr p
      · have hall : ∀ y ∈ ((q :: qs).filter pr).head?, pyLe y.date p.date = true := by
          intro y hy
          have hmem : y ∈ (q :: qs).filter pr := by
            cases hh : ((q :: qs).filter pr) with
            | nil => rw [hh] at hy; cases hy
            | cons z zs => rw [hh] at hy; cases hy; simp
          have := (List.mem_filter.mp hmem).1
          exact pyLe_trans (date_le_head_of_sorted hm y this) hq
        rw [if_pos hp, sortInsert_eq_cons hall]
        simp [List.filter_cons, hp]
      · rw [if_neg hp]
        simp [List.filter_cons, hp]
    · have hred : sortInsert p (q :: qs) = q :: sortInsert p qs := by
        simp only [sortInsert]; rw [if_neg hq]
      rw [hred]
      have ihq := ih (List.Chain'.tail hm)
      by_cases hp : pr p <;> by_cases hqp : pr q
      · rw [if_pos hp]
        have hrhs : sortInsert p ((q :: qs).filter pr) = q :: sortInsert p (qs.filter pr) := by
          simp only [List.filter_cons, hqp, if_true]
          simp only [sortInsert]
          rw [if_neg hq]
        rw [hrhs]
        simp only [List.filter_cons, hqp, if_true, ihq, if_pos hp]
      · rw [if_pos hp]
        simp only [List.filter_cons, hqp, Bool.false_eq_true, if_false, ihq, if_pos hp]
      · rw [if_neg hp]
        simp only [List.filter_cons, hqp, if_true, ihq, if_neg hp]
      · rw [if_neg hp]
        simp only [List.filter_cons, hqp, Bool.false_eq_true, if_false, ihq, if_neg hp]

theorem filter_sortByDateDesc (pr : Post → Bool) (l : List Post) :
    (sortByDateDesc l).filter pr = sortByDateDesc (l.filter pr) := by
  induction l with
  | nil => rfl
  | cons p l ih =>
    show (sortInsert p (sortByDateDesc l)).filter pr = sortByDateDesc ((p :: l).filter pr)
    rw [filter_sortInsert_of_sorted pr p (dateSortedDesc_sortByDateDesc l), ih]
    by_cases hp : pr p
    · simp only [List.filter_cons, hp, if_true]
      rfl
    · simp only [List.filter_cons, hp, Bool.false_eq_true, if_false]


theorem not_prefix_html {c : Char} {l : List Char}
    (h : containsSubChars ".html".data (c :: l) = false) :
    ".html".data.isPrefixOf (c :: l ++ ".html".data) = false := by
  by_contra hcon
  rw [Bool.not_eq_false] at hcon
  have hpre : ".html".data <+: (c :: l ++ ".html".data) :=
    List.isPrefixOf_iff_prefix.mp hcon
  by_cases hlen : 5 ≤ (c :: l).length
  · have hpre2 : (c :: l) <+: (c :: l ++ ".html".data) := List.prefix_append _ _
    have hple : ".html".data <+: (c :: l) :=
      List.prefix_of_prefix_length_le hpre hpre2 (by simpa using hlen)
    have hb : ".html".data.isPrefixOf (c :: l) = true :=
      List.isPrefixOf_iff_prefix.mpr hple
    rw [containsSubChars, hb] at h
    simp at h
  · have hpre2 : (c :: l) <+: (c :: l ++ ".html".data) := List.prefix_append _ _
    have hsub : (c :: l) <+: ".html".data := by
      refine List.prefix_of_prefix_length_le hpre2 hpre ?_
      have h5 : ".html".data.length = 5 := by decide
      omega
    have htake : c :: l = ".html".data.take (c :: l).length :=
      List.prefix_iff_eq_take.mp hsub
    rcases l with _ | ⟨a, _ | ⟨b, _ | ⟨d, _ | ⟨e, rest⟩⟩⟩⟩
    · simp at htake
      subst htake
      exact absurd hcon (by decide)
    · simp [List.take] at htake
      obtain ⟨rfl, rfl⟩ := htake
      exact absurd hcon (by decide)
    · simp [List.take] at htake
      obtain ⟨rfl, rfl, rfl⟩ := htake
      exact absurd hcon (by decide)
    · simp [List.take] at htake
      obtain ⟨rfl, rfl, rfl, rfl⟩ := htake
      exact absurd hcon (by decide)
    · simp at hlen

theorem pyReplaceF_strip_html : ∀ (l : List Char) (fuel : Nat),
    containsSubChars ".html".data l = false → l.length + 1 ≤ fuel →
    pyReplaceF '.' ['h', 't', 'm', 'l'] [] fuel (l ++ ".html".data) = l := by
  intro l
  induction l with
  | nil =>
    intro fuel h hfuel
    match fuel, hfuel with
    | fuel + 1, _ =>
      rw [List.nil_append]
      simp only [pyReplaceF]
      norm_num
      simp only [pyReplaceF]
  | cons c l' ih =>
    intro fuel h hfuel
    match fuel, hfuel with
    | fuel + 1, hfuel =>
      have hnp : (('.' :: ['h', 't', 'm', 'l']).isPrefixOf
          (c :: (l' ++ ".html".data))) = false := not_prefix_html h
      have hrest : containsSubChars ".html".data l' = false := by
        rw [containsSubChars, Bool.or_eq_false_iff] at h
        exact h.2
      have hstep : pyReplaceF '.' ['h', 't', 'm', 'l'] [] (fuel + 1)
          ((c :: l') ++ ".html".data)
          = c :: pyReplaceF '.' ['h', 't', 'm', 'l'] [] fuel (l' ++ ".html".data) := by
        rw [List.cons_append]
        simp only [pyReplaceF]
        rw [hnp]
        simp
      rw [hstep, ih fuel hrest (by simp at hfuel ⊢; omega)]

theorem stripHtml_append (name : String) (h : containsSub ".html" name = false) :
    pyReplace (name ++ ".html") ".html" "" = name := by
  show String.mk (pyReplaceF '.' ['h', 't', 'm', 'l'] []
      (name ++ ".html").data.length (name ++ ".html").data) = name
  have hdata : (name ++ ".html").data = name.data ++ ".html".data := rfl
  rw [hdata]
  have h5 : ".html".data.length = 5 := by decide
  rw [pyReplaceF_strip_html name.data (name.data ++ ".html".data).length h
    (by rw [List.length_append, h5]; omega)]

end Blog

namespace Blog

theorem processFolder_built_file {f : Folder} {p : Post} {html : String}
    (h : processFolder f = .built p html) : p.file = f.name ++ ".html" := by
  unfold processFolder at h
  split at h
  · cases h
  · split at h
    · cases h
    · split at h
      · cases h
      · split at h
        · cases h
        · cases h
          rfl

theorem batchRecords_filter_visited (folders : List Folder)
    (hnames : ∀ f ∈ folders, containsSub ".html" f.name = false) :
    (batchRecords folders).filter
      (fun ep => !((folders.map Folder.name).contains (ep_slug ep))) = [] := by
  rw [List.filter_eq_nil_iff]
  intro p hp
  obtain ⟨f, hf, hpf⟩ := List.mem_filterMap.mp hp
  match hpp : processFolder f with
  | .skipped => rw [hpp] at hpf; cases hpf
  | .failed => rw [hpp] at hpf; cases hpf
  | .built p' html =>
    rw [hpp] at hpf
    cases hpf
    have hfile : p.file = f.name ++ ".html" := processFolder_built_file hpp
    have hslug : ep_slug p = f.name := by
      unfold ep_slug
      rw [hfile]
      exact stripHtml_append f.name (hnames f hf)
    simp [hslug]
    exact ⟨f, hf, rfl⟩

end Blog

namespace Blog

/-- Claim C5, counterexample: a folder named `a.html` builds a record whose
file is `a.html.html`; stripping every occurrence of `.html` from that
name during the second run's merge yields `a`, which is not among the
visited slugs, so the first run's own record is carried over in addition
to the freshly generated one — the second catalog has the record twice. -/
theorem rerun_not_idempotent_cex :
    (build_blog [⟨"a.html", "NASLOV: T\n---\nx", []⟩] []).toOption.map
        (fun r => r.2)
      = some [⟨"a.html.html", "T", "", "2026-01-01", "../img.png", "Članak"⟩] ∧
    (build_blog [⟨"a.html", "NASLOV: T\n---\nx", []⟩]
        [⟨"a.html.html", "T", "", "2026-01-01", "../img.png", "Članak"⟩]).toOption.map
        (fun r => r.2)
      = some [⟨"a.html.html", "T", "", "2026-01-01", "../img.png", "Članak"⟩,
              ⟨"a.html.html", "T", "", "2026-01-01", "../img.png", "Članak"⟩] := by
  exact ⟨rfl, rfl⟩

/-- Claim C5 as amended: provided no visited folder's name contains the
substring `.html`, a second run over unchanged folders is idempotent: it
writes byte-identical output files and reproduces the catalog the first
run produced. -/
theorem build_blog_idempotent (folders : List Folder) (existing : List Post)
    (outs : List (String × String)) (cat : List Post)
    (hnames : ∀ f ∈ folders, containsSub ".html" f.name = false)
    (h : build_blog folders existing = .ok (outs, cat)) :
    build_blog folders cat = .ok (outs, cat) := by
  unfold build_blog at h ⊢
  match hb : buildFold folders [] [] [] with
  | .error e => rw [hb] at h; cases h
  | .ok res =>
    rw [hb] at h
    obtain ⟨P, S, O⟩ := res
    have hres := buildFold_ok folders [] [] [] hb
    have hP : P = batchRecords folders := congrArg Prod.fst hres
    have hS : S = folders.map Folder.name := congrArg (fun r => r.2.1) hres
    have hO : O = outFiles folders := congrArg (fun r => r.2.2) hres
    subst hP hS hO
    have h' : Except.ok ((outFiles folders : List (String × String)),
        sortByDateDesc (batchRecords folders ++ existing.filter
          (fun ep => !((folders.map Folder.name).contains (ep_slug ep)))))
        = Except.ok (outs, cat) := h
    injection h' with h1
    injection h1 with hOuts hCat
    subst hOuts hCat
    show Except.ok (outFiles folders,
        sortByDateDesc (batchRecords folders
          ++ (sortByDateDesc (batchRecords folders ++ existing.filter
                (fun ep => !((folders.map Folder.name).contains (ep_slug ep))))).filter
              (fun ep => !((folders.map Folder.name).contains (ep_slug ep)))))
      = _
    rw [filter_sortByDateDesc, List.filter_append,
      batchRecords_filter_visited folders hnames, List.nil_append]
    have hM : (existing.filter
          (fun ep => !((folders.map Folder.name).contains (ep_slug ep)))).filter
        (fun ep => !((folders.map Folder.name).contains (ep_slug ep)))
      = existing.filter (fun ep => !((folders.map Folder.name).contains (ep_slug ep))) := by
      rw [List.filter_filter]
      simp [Bool.and_self]
    rw [hM, sortByDateDesc_append_sort]

/-- Witness for C5: a batch with one folder that is skipped (no separator)
carries the sole persisted record forward unchanged, and re-running over
that catalog reproduces it. -/
theorem build_blog_idempotent_witness :
    build_blog [(⟨"sk", "x", []⟩ : Folder)]
        [(⟨"x.html", "T", "", "2026-01-01", "i", "t"⟩ : Post)]
      = .ok ([], [(⟨"x.html", "T", "", "2026-01-01", "i", "t"⟩ : Post)]) :=
  build_blog_idempotent [⟨"sk", "x", []⟩]
    [⟨"x.html", "T", "", "2026-01-01", "i", "t"⟩] []
    [⟨"x.html", "T", "", "2026-01-01", "i", "t"⟩]
    (by decide) rfl

end Blog

namespace Blog

theorem startsWithS_data {p s : String} (h : startsWithS p s = true) :
    ∃ t, s.data = p.data ++ t := by
  unfold startsWithS at h
  obtain ⟨t, ht⟩ := List.isPrefixOf_iff_prefix.mp h
  exact ⟨t, ht.symm⟩

theorem isPrefixOf_false_head {a b : Char} {as bs : List Char} (h : (a == b) = false) :
    (a :: as).isPrefixOf (b :: bs) = false := by
  show (a == b && (as.isPrefixOf bs)) = false
  rw [h]
  rfl

theorem ne_empty_of_head {s : String} {c : Char} {t : List Char}
    (hdata : s.data = c :: t) : ¬(s = "") := by
  intro he
  rw [he] at hdata
  have h0 : ([] : List Char) = c :: t := hdata
  cases h0

theorem imgMatch_none_of_head {s : String} {c : Char} {t : List Char}
    (hdata : s.data = c :: t) (hc : (('[' : Char) == c) = false) :
    imgMatch s = none := by
  unfold imgMatch
  have h0 : ("[SLIKA:".data.isPrefixOf s.data) = false := by
    rw [hdata]
    exact isPrefixOf_false_head hc
  simp [h0]

theorem not_h2_of_head {s : String} {c : Char} {t : List Char}
    (hdata : s.data = c :: t) (hc : (('#' : Char) == c) = false) :
    startsWithS "## " s = false := by
  unfold startsWithS
  rw [hdata]
  exact isPrefixOf_false_head hc

theorem not_h3_of_head {s : String} {c : Char} {t : List Char}
    (hdata : s.data = c :: t) (hc : (('#' : Char) == c) = false) :
    startsWithS "### " s = false := by
  unfold startsWithS
  rw [hdata]
  exact isPrefixOf_false_head hc

theorem not_quote_of_head {s : String} {c : Char} {t : List Char}
    (hdata : s.data = c :: t) (hc : (('>' : Char) == c) = false) :
    startsWithS "> " s = false := by
  unfold startsWithS
  rw [hdata]
  exact isPrefixOf_false_head hc

end Blog

namespace Blog

theorem scan_step_quote (fn : String) (lines : List String) (fuel i : Nat)
    (in_list : Bool) (parts : List String) (line : String)
    (hget : lines.get? i = some line)
    (hq : startsWithS "> " (pyStrip line) = true) :
    scanLoop fn lines (fuel + 1) i in_list parts
      = scanLoop fn lines fuel
          (i + (((lines.drop i).map pyStrip).takeWhile (fun l => startsWithS "> " l)).length)
          false
          (closeIf parts in_list
            ++ ["        <blockquote>",
                "          " ++ inline_format (String.intercalate " "
                  ((((lines.drop i).map pyStrip).takeWhile (fun l => startsWithS "> " l)).map
                    (fun l => sDrop l 2))),
                "        </blockquote>"]) := by
  obtain ⟨t, hdata⟩ := startsWithS_data hq
  have hdata' : (pyStrip line).data = '>' :: ' ' :: t := hdata
  have hne : ¬(pyStrip line = "") := ne_empty_of_head hdata'
  have himg : imgMatch (pyStrip line) = none := imgMatch_none_of_head hdata' (by decide)
  have hh2 : startsWithS "## " (pyStrip line) = false := not_h2_of_head hdata' (by decide)
  have hh3 : startsWithS "### " (pyStrip line) = false := not_h3_of_head hdata' (by decide)
  conv_lhs => rw [scanLoop]
  simp only [hget, himg, hh2, hh3, hq, if_neg hne]
  rfl

end Blog

namespace Blog

/-- Claim C8: a maximal run of contiguous blockquote lines is consumed in
one scanner step: exactly one blockquote node is emitted, whose text is
the stripped lines with their 2-character prefix removed, joined by one
space and inline-formatted, and the cursor advances past the whole run
(runs and contents are computed on the whitespace-stripped lines). -/
theorem blockquote_run_single_node (fn : String) (lines : List String)
    (fuel i : Nat) (in_list : Bool) (parts : List String) (qs : List String)
    (hk : ((lines.drop i).map pyStrip).takeWhile (fun l => startsWithS "> " l) = qs)
    (hne : qs ≠ []) :
    scanLoop fn lines (fuel + 1) i in_list parts
      = scanLoop fn lines fuel (i + qs.length) false
          (closeIf parts in_list
            ++ ["        <blockquote>",
                "          " ++ inline_format (String.intercalate " "
                  (qs.map (fun l => sDrop l 2))),
                "        </blockquote>"]) := by
  match hget : lines.get? i with
  | none =>
      exfalso
      have hdrop : lines.drop i = [] :=
        List.drop_eq_nil_of_le (List.get?_eq_none.mp hget)
      rw [hdrop] at hk
      simp at hk
      exact hne hk
  | some line =>
      have hlt : i < lines.length := by
        by_contra hge
        rw [List.get?_eq_none.mpr (Nat.le_of_not_lt hge)] at hget
        cases hget
      have hdrop : lines.drop i = line :: lines.drop (i + 1) := by
        have h1 := List.drop_eq_get_cons hlt
        have h2 : lines.get ⟨i, hlt⟩ = line := by
          have := List.get?_eq_get hlt
          rw [hget] at this
          exact (Option.some.inj this).symm
        rw [h2] at h1
        exact h1
      have hq : startsWithS "> " (pyStrip line) = true := by
        cases hpq : startsWithS "> " (pyStrip line) with
        | true => rfl
        | false =>
            exfalso
            rw [hdrop, List.map_cons, List.takeWhile_cons, hpq] at hk
            simp at hk
            exact hne hk
      rw [scan_step_quote fn lines fuel i in_list parts line hget hq, hk]

end Blog

namespace Blog

theorem scan_step_item (fn : String) (lines : List String) (fuel i : Nat)
    (in_list : Bool) (parts : List String) (line : String)
    (hget : lines.get? i = some line)
    (hq : startsWithS "- " (pyStrip line) = true) :
    scanLoop fn lines (fuel + 1) i in_list parts
      = scanLoop fn lines fuel (i + 1) true
          ((if in_list then parts else parts ++ [ulOpen]) ++ [liPart (pyStrip line)]) := by
  obtain ⟨t, hdata0⟩ := startsWithS_data hq
  have hdata : (pyStrip line).data = '-' :: ' ' :: t := hdata0
  have hne := ne_empty_of_head hdata
  have himg := imgMatch_none_of_head hdata (by decide)
  have hh2 := not_h2_of_head hdata (by decide)
  have hh3 := not_h3_of_head hdata (by decide)
  have hqt := not_quote_of_head hdata (by decide)
  conv_lhs => rw [scanLoop]
  simp only [hget, himg, hh2, hh3, hqt, hq, if_neg hne]
  simp

theorem head_dropWhile_false {α : Type} (p : α → Bool) :
    ∀ (xs : List α) (y : α), (xs.dropWhile p).head? = some y → p y = false := by
  intro xs
  induction xs with
  | nil => intro y h; cases h
  | cons a l ih =>
      intro y h
      rw [List.dropWhile_cons] at h
      by_cases hpa : p a = true
      · rw [if_pos hpa] at h
        exact ih y h
      · rw [if_neg hpa] at h
        have hay : a = y := Option.some.inj h
        subst hay
        cases hpb : p a with
        | true => exact absurd hpb hpa
        | false => rfl

theorem drop_map_cons {lines : List String} {i : Nat} {q : String} {r : List String}
    (hdec : (lines.drop i).map pyStrip = q :: r) :
    ∃ line, lines.get? i = some line ∧ pyStrip line = q
      ∧ (lines.drop (i + 1)).map pyStrip = r := by
  cases hdd : lines.drop i with
  | nil => rw [hdd] at hdec; cases hdec
  | cons line rest =>
      rw [hdd, List.map_cons] at hdec
      injection hdec with h1 h2
      refine ⟨line, ?_, h1, ?_⟩
      · have h3 := List.get?_drop lines i 0
        rw [hdd] at h3
        simpa using h3.symm
      · have h5 := List.drop_drop 1 i lines
        rw [hdd] at h5
        have h6 : rest = lines.drop (i + 1) := h5
        rw [← h6]
        exact h2

theorem scan_list_run (fn : String) (lines : List String) (items : List String) :
    ∀ (fuel i : Nat) (P t : List String),
      (∀ l ∈ items, startsWithS "- " l = true) →
      ((lines.drop i).map pyStrip = items ++ t) →
      scanLoop fn lines (fuel + items.length) i true P
        = scanLoop fn lines fuel (i + items.length) true (P ++ items.map liPart) := by
  induction items with
  | nil =>
      intro fuel i P t _ _
      simp
  | cons q qs ih =>
      intro fuel i P t hall hdec
      obtain ⟨line, hget, hstrip, hdec1⟩ := drop_map_cons hdec
      have hq : startsWithS "- " (pyStrip line) = true := by
        rw [hstrip]
        exact hall q (List.mem_cons_self q qs)
      have step := scan_step_item fn lines (fuel + qs.length) i true P line hget hq
      show scanLoop fn lines ((fuel + qs.length) + 1) i true P = _
      rw [step, hstrip]
      have hall' : ∀ l ∈ qs, startsWithS "- " l = true :=
        fun l hl => hall l (List.mem_cons_of_mem q hl)
      have step2 := ih fuel (i + 1)
        ((if true = true then P else P ++ [ulOpen]) ++ [liPart q]) t hall' hdec1
      rw [step2]
      have hidx : (i + 1) + qs.length = i + (qs.length + 1) := by omega
      rw [hidx]
      simp [List.append_assoc]

end Blog

namespace Blog

theorem scan_close_uniform (fn : String) (lines : List String) (fuel j : Nat)
    (P : List String)
    (h : ∀ lj, lines.get? j = some lj → startsWithS "- " (pyStrip lj) = false) :
    scanLoop fn lines fuel j true P = scanLoop fn lines fuel j false (P ++ [ulClose]) := by
  cases hget : lines.get? j with
  | none =>
      conv_lhs => rw [scanLoop]
      conv_rhs => rw [scanLoop]
      simp only [hget]
      simp [closeIf]
  | some lj =>
      have hli : startsWithS "- " (pyStrip lj) = false := h lj hget
      cases fuel with
      | zero =>
          conv_lhs => rw [scanLoop]
          conv_rhs => rw [scanLoop]
          simp only [hget]
      | succ fuel =>
          conv_lhs => rw [scanLoop]
          conv_rhs => rw [scanLoop]
          simp only [hget]
          by_cases hbl : pyStrip lj = ""
          · rw [if_pos hbl, if_pos hbl]
            simp [closeIf]
          · rw [if_neg hbl, if_neg hbl]
            cases himg : imgMatch (pyStrip lj) with
            | some fc =>
                simp [closeIf, List.append_assoc]
            | none =>
                by_cases h2 : (startsWithS "## " (pyStrip lj)
                    && !startsWithS "### " (pyStrip lj)) = true
                · rw [if_pos h2, if_pos h2]
                  simp [closeIf, List.append_assoc]
                · rw [if_neg h2, if_neg h2]
                  by_cases h3 : startsWithS "### " (pyStrip lj) = true
                  · rw [if_pos h3, if_pos h3]
                    simp [closeIf, List.append_assoc]
                  · rw [if_neg h3, if_neg h3]
                    by_cases hq : startsWithS "> " (pyStrip lj) = true
                    · rw [if_pos hq, if_pos hq]
                      simp [closeIf, List.append_assoc]
                    · rw [if_neg hq, if_neg hq]
                      have hli' : ¬(startsWithS "- " (pyStrip lj) = true) := by
                        simp [hli]
                      rw [if_neg hli', if_neg hli']
                      simp [closeIf, List.append_assoc]

end Blog

namespace Blog

/-- Claim C7: a maximal run of contiguous list-item lines yields exactly one
list block: the scanner, entering the run with no list open, emits the
opening tag, one item per run line in written order, and the closing tag,
exactly when the run ends (blank line, any other block kind, or end of
input), with the cursor advanced past the run and the list closed
(runs and item texts are computed on the whitespace-stripped lines). -/
theorem list_run_single_block (fn : String) (lines : List String)
    (fuel i : Nat) (parts : List String) (items : List String)
    (hk : ((lines.drop i).map pyStrip).takeWhile (fun l => startsWithS "- " l) = items)
    (hne : items ≠ []) :
    scanLoop fn lines (fuel + items.length) i false parts
      = scanLoop fn lines fuel (i + items.length) false
          (parts ++ [ulOpen] ++ items.map liPart ++ [ulClose]) := by
  cases items with
  | nil => exact absurd rfl hne
  | cons q qs =>
      have hsplit : ((lines.drop i).map pyStrip).takeWhile (fun l => startsWithS "- " l)
          ++ ((lines.drop i).map pyStrip).dropWhile (fun l => startsWithS "- " l)
          = (lines.drop i).map pyStrip :=
        List.takeWhile_append_dropWhile (fun l => startsWithS "- " l)
          ((lines.drop i).map pyStrip)
      rw [hk] at hsplit
      have hdec : (lines.drop i).map pyStrip
          = q :: (qs ++ ((lines.drop i).map pyStrip).dropWhile (fun l => startsWithS "- " l)) :=
        hsplit.symm
      have hall : ∀ l ∈ q :: qs, startsWithS "- " l = true := by
        intro l hl
        have h' : l ∈ ((lines.drop i).map pyStrip).takeWhile (fun l => startsWithS "- " l) := by
          rw [hk]
          exact hl
        exact List.mem_takeWhile_imp h'
      obtain ⟨line, hget, hstrip, hdec1⟩ := drop_map_cons hdec
      have hq : startsWithS "- " (pyStrip line) = true := by
        rw [hstrip]
        exact hall q (List.mem_cons_self q qs)
      have step1 := scan_step_item fn lines (fuel + qs.length) i false parts line hget hq
      show scanLoop fn lines ((fuel + qs.length) + 1) i false parts = _
      rw [step1, hstrip]
      have hall' : ∀ l ∈ qs, startsWithS "- " l = true :=
        fun l hl => hall l (List.mem_cons_of_mem q hl)
      have step2 := scan_list_run fn lines qs fuel (i + 1)
        ((if false = true then parts else parts ++ [ulOpen]) ++ [liPart q])
        (((lines.drop i).map pyStrip).dropWhile (fun l => startsWithS "- " l)) hall' hdec1
      rw [step2]
      have hclose : ∀ lj, lines.get? ((i + 1) + qs.length) = some lj →
          startsWithS "- " (pyStrip lj) = false := by
        intro lj hgetj
        have hidx0 : (i + 1) + qs.length = i + (qs.length + 1) := by omega
        rw [hidx0] at hgetj
        have h1 : ((lines.drop i).map pyStrip).get? (qs.length + 1) = some (pyStrip lj) := by
          rw [List.get?_map, List.get?_drop, hgetj]
          rfl
        rw [hdec] at h1
        have h2 : ((qs ++ ((lines.drop i).map pyStrip).dropWhile
            (fun l => startsWithS "- " l)).get? qs.length) = some (pyStrip lj) := h1
        rw [List.get?_append_right (Nat.le_refl qs.length)] at h2
        rw [Nat.sub_self] at h2
        have h3 : (((lines.drop i).map pyStrip).dropWhile
            (fun l => startsWithS "- " l)).head? = some (pyStrip lj) := by
          rw [← List.get?_zero]
          exact h2
        exact head_dropWhile_false _ _ _ h3
      rw [scan_close_uniform fn lines fuel ((i + 1) + qs.length) _ hclose]
      have hidx : (i + 1) + qs.length = i + (qs.length + 1) := by omega
      rw [hidx]
      simp [List.append_assoc]

end Blog

namespace Blog

/-- Witness for C7: the run `- a`, `- b` followed by a blank line is
consumed into one list block with both items in order. -/
theorem list_run_single_block_witness :
    scanLoop "post" ["- a", "- b", ""] (1 + (["- a", "- b"] : List String).length) 0 false []
      = scanLoop "post" ["- a", "- b", ""] 1 (0 + (["- a", "- b"] : List String).length) false
          ([] ++ [ulOpen] ++ (["- a", "- b"] : List String).map liPart ++ [ulClose]) :=
  list_run_single_block "post" ["- a", "- b", ""] 1 0 [] ["- a", "- b"] rfl (by decide)

/-- Claim C7, counterexample to the raw-prefix reading: `  - b` does not
begin with `- `, yet the scanner (which strips each line before
classifying it) keeps the list open and puts `b` in the same list block
as `a`, instead of closing the list at a line of another block kind. -/
theorem list_leading_ws_cex :
    startsWithS "- " "  - b" = false ∧
    txt_to_html_content "- a\n  - b" "post"
      = some "        <ul>\n          <li>a</li>\n          <li>b</li>\n        </ul>" := by
  exact ⟨rfl, rfl⟩

/-- Witness for C8: the run `> a`, `> b` followed by a non-quote line is
consumed in one step into one blockquote whose text is `a b`. -/
theorem blockquote_run_single_node_witness :
    scanLoop "post" ["> a", "> b", "x"] (0 + 1) 0 false []
      = scanLoop "post" ["> a", "> b", "x"] 0 (0 + (["> a", "> b"] : List String).length) false
          (closeIf [] false
            ++ ["        <blockquote>",
                "          " ++ inline_format (String.intercalate " "
                  ((["> a", "> b"] : List String).map (fun l => sDrop l 2))),
                "        </blockquote>"]) :=
  blockquote_run_single_node "post" ["> a", "> b", "x"] 0 0 false [] ["> a", "> b"] rfl (by decide)

/-- Claim C8, counterexample to the raw-line reading: with a trailing
space on the first quote line, removing the 2-character prefix from the
raw lines and joining with one space would give `a  b`, but the code
strips each line before removing the prefix and emits `a b`. -/
theorem blockquote_raw_prefix_cex :
    String.intercalate " " [sDrop "> a " 2, sDrop "> b" 2] = "a  b" ∧
    txt_to_html_content "> a \n> b" "post"
      = some "        <blockquote>\n          a b\n        </blockquote>" := by
  exact ⟨rfl, rfl⟩

end Blog

namespace Blog

theorem startsStar_false_head {d : Char} {l : List Char} (hd : ¬(d = '*')) :
    startsStar (d :: l) = false := by
  simp [startsStar, hd]

theorem startsTwoStars_false_head {d : Char} {l : List Char} (hd : ¬(d = '*')) :
    startsTwoStars (d :: l) = false := by
  cases l with
  | nil => rfl
  | cons e l' => simp [startsTwoStars, hd]

theorem startsStar_false_of_nostar {l : List Char} (h : '*' ∉ l) :
    startsStar l = false := by
  cases l with
  | nil => rfl
  | cons c l' =>
      have : ¬(c = '*') := fun hc => h (hc ▸ List.mem_cons_self c l')
      exact startsStar_false_head this

theorem subStrongF_id_nostar : ∀ (l : List Char) (fuel : Nat), '*' ∉ l →
    subStrongF fuel l = l := by
  intro l
  induction l with
  | nil => intro fuel _; cases fuel <;> rfl
  | cons c rest ih =>
      intro fuel h
      have hc : ¬(c = '*') := fun hc => h (hc ▸ List.mem_cons_self c rest)
      have hrest : '*' ∉ rest := fun hm => h (List.mem_cons_of_mem c hm)
      cases fuel with
      | zero => rfl
      | succ f =>
          conv_lhs => rw [subStrongF]
          simp only [hc, decide_eq_true_eq, decide_False, Bool.false_and, if_false]
          rw [ih f hrest]
          rfl

theorem subEmF_id_nostar : ∀ (l : List Char) (fuel : Nat), '*' ∉ l →
    subEmF fuel l = l := by
  intro l
  induction l with
  | nil => intro fuel _; cases fuel <;> rfl
  | cons c rest ih =>
      intro fuel h
      have hc : ¬(c = '*') := fun hc => h (hc ▸ List.mem_cons_self c rest)
      have hrest : '*' ∉ rest := fun hm => h (List.mem_cons_of_mem c hm)
      cases fuel with
      | zero => rfl
      | succ f =>
          conv_lhs => rw [subEmF]
          rw [if_neg hc]
          rw [ih f hrest]

theorem subLinkF_id_nolb : ∀ (l : List Char) (fuel : Nat), '[' ∉ l →
    subLinkF fuel l = l := by
  intro l
  induction l with
  | nil => intro fuel _; cases fuel <;> rfl
  | cons c rest ih =>
      intro fuel h
      have hc : ¬(c = '[') := fun hc => h (hc ▸ List.mem_cons_self c rest)
      have hrest : '[' ∉ rest := fun hm => h (List.mem_cons_of_mem c hm)
      cases fuel with
      | zero => rfl
      | succ f =>
          conv_lhs => rw [subLinkF]
          rw [if_neg hc]
          rw [ih f hrest]

end Blog

namespace Blog

theorem strongClose_no_star (b : List Char) (r : List Char)
    (hne : b ≠ []) (hnl : '\n' ∉ b) (hst : '*' ∉ b) :
    strongClose (b ++ '*' :: '*' :: r) = some (b, r) := by
  induction b with
  | nil => exact absurd rfl hne
  | cons c cs ih =>
      have hcnl : ¬(c = '\n') := fun h => hnl (h ▸ List.mem_cons_self c cs)
      rw [List.cons_append, strongClose]
      rw [if_neg hcnl]
      cases cs with
      | nil =>
          rw [if_pos (by rfl : startsTwoStars ([] ++ '*' :: '*' :: r) = true)]
          rfl
      | cons d ds =>
          have hd : ¬(d = '*') :=
            fun h => hst (h ▸ List.mem_cons_of_mem c (List.mem_cons_self d ds))
          have hts : ¬(startsTwoStars ((d :: ds) ++ '*' :: '*' :: r) = true) := by
            rw [List.cons_append]
            rw [startsTwoStars_false_head hd]
            simp
          rw [if_neg hts]
          have hne' : d :: ds ≠ [] := by simp
          have hnl' : '\n' ∉ d :: ds := fun h => hnl (List.mem_cons_of_mem c h)
          have hst' : '*' ∉ d :: ds := fun h => hst (List.mem_cons_of_mem c h)
          rw [ih hne' hnl' hst']
          rfl

theorem emClose_no_star (i : List Char) (r : List Char)
    (hne : i ≠ []) (hnl : '\n' ∉ i) (hst : '*' ∉ i) :
    emClose (i ++ '*' :: r) = some (i, r) := by
  induction i with
  | nil => exact absurd rfl hne
  | cons c cs ih =>
      have hcnl : ¬(c = '\n') := fun h => hnl (h ▸ List.mem_cons_self c cs)
      rw [List.cons_append, emClose]
      rw [if_neg hcnl]
      cases cs with
      | nil =>
          rw [if_pos (by rfl : startsStar ([] ++ '*' :: r) = true)]
          rfl
      | cons d ds =>
          have hd : ¬(d = '*') :=
            fun h => hst (h ▸ List.mem_cons_of_mem c (List.mem_cons_self d ds))
          have hts : ¬(startsStar ((d :: ds) ++ '*' :: r) = true) := by
            rw [List.cons_append]
            rw [startsStar_false_head hd]
            simp
          rw [if_neg hts]
          have hne' : d :: ds ≠ [] := by simp
          have hnl' : '\n' ∉ d :: ds := fun h => hnl (List.mem_cons_of_mem c h)
          have hst' : '*' ∉ d :: ds := fun h => hst (List.mem_cons_of_mem c h)
          rw [ih hne' hnl' hst']
          rfl

end Blog

namespace Blog

theorem subStrongF_id_tail : ∀ (i : List Char) (fuel : Nat) (tail : List Char),
    '*' ∉ i → '*' ∉ tail →
    subStrongF fuel (i ++ '*' :: tail) = i ++ '*' :: tail := by
  intro i
  induction i with
  | nil =>
      intro fuel tail _ htail
      cases fuel with
      | zero => rfl
      | succ f =>
          rw [List.nil_append]
          conv_lhs => rw [subStrongF]
          rw [if_neg (by simp [startsStar_false_of_nostar htail])]
          rw [subStrongF_id_nostar tail f htail]
  | cons c cs ih =>
      intro fuel tail h htail
      have hc : ¬(c = '*') := fun hc => h (hc ▸ List.mem_cons_self c cs)
      have hcs : '*' ∉ cs := fun hm => h (List.mem_cons_of_mem c hm)
      cases fuel with
      | zero => rfl
      | succ f =>
          rw [List.cons_append]
          conv_lhs => rw [subStrongF]
          rw [if_neg (by simp [hc])]
          rw [ih f tail hcs htail]

theorem subStrongF_id_structured : ∀ (mid : List Char) (fuel : Nat) (i tail : List Char),
    '*' ∉ mid → i ≠ [] → '*' ∉ i → '*' ∉ tail →
    subStrongF fuel (mid ++ '*' :: (i ++ '*' :: tail)) = mid ++ '*' :: (i ++ '*' :: tail) := by
  intro mid
  induction mid with
  | nil =>
      intro fuel i tail _ hine hist htst
      cases fuel with
      | zero => rfl
      | succ f =>
          rw [List.nil_append]
          conv_lhs => rw [subStrongF]
          have hss : startsStar (i ++ '*' :: tail) = false := by
            cases i with
            | nil => exact absurd rfl hine
            | cons c cs =>
                rw [List.cons_append]
                exact startsStar_false_head
                  (fun hc => hist (hc ▸ List.mem_cons_self c cs))
          rw [if_neg (by simp [hss])]
          rw [subStrongF_id_tail i f tail hist htst]
  | cons c cs ih =>
      intro fuel i tail h hine hist htst
      have hc : ¬(c = '*') := fun hc => h (hc ▸ List.mem_cons_self c cs)
      have hcs : '*' ∉ cs := fun hm => h (List.mem_cons_of_mem c hm)
      cases fuel with
      | zero => rfl
      | succ f =>
          rw [List.cons_append]
          conv_lhs => rw [subStrongF]
          rw [if_neg (by simp [hc])]
          rw [ih f i tail hcs hine hist htst]

end Blog

namespace Blog

theorem subStrongF_decomp (fuel : Nat) (b mid i tail : List Char)
    (hf : 1 ≤ fuel) (hbne : b ≠ []) (hbnl : '\n' ∉ b) (hbst : '*' ∉ b)
    (hmst : '*' ∉ mid) (hine : i ≠ []) (hist : '*' ∉ i) (htst : '*' ∉ tail) :
    subStrongF fuel ('*' :: '*' :: (b ++ '*' :: '*' :: (mid ++ '*' :: (i ++ '*' :: tail))))
      = "<strong>".data ++ b ++ "</strong>".data ++ (mid ++ '*' :: (i ++ '*' :: tail)) := by
  cases fuel with
  | zero => exact absurd hf (by simp)
  | succ f =>
      conv_lhs => rw [subStrongF]
      rw [if_pos (by simp [startsStar] : (('*' : Char) = '*' && startsStar ('*' :: (b ++ '*' :: '*' :: (mid ++ '*' :: (i ++ '*' :: tail))))) = true)]
      have hclose := strongClose_no_star b (mid ++ '*' :: (i ++ '*' :: tail)) hbne hbnl hbst
      rw [show ('*' :: (b ++ '*' :: '*' :: (mid ++ '*' :: (i ++ '*' :: tail)))).tail
          = b ++ '*' :: '*' :: (mid ++ '*' :: (i ++ '*' :: tail)) from rfl]
      rw [hclose]
      simp only [subStrongF_id_structured mid f i tail hmst hine hist htst]

theorem subStrong_decomp (b mid i tail : List Char)
    (hbne : b ≠ []) (hbnl : '\n' ∉ b) (hbst : '*' ∉ b)
    (hmst : '*' ∉ mid) (hine : i ≠ []) (hist : '*' ∉ i) (htst : '*' ∉ tail) :
    subStrong ('*' :: '*' :: (b ++ '*' :: '*' :: (mid ++ '*' :: (i ++ '*' :: tail))))
      = "<strong>".data ++ b ++ "</strong>".data ++ (mid ++ '*' :: (i ++ '*' :: tail)) :=
  subStrongF_decomp _ b mid i tail (by simp) hbne hbnl hbst hmst hine hist htst

end Blog

namespace Blog

theorem subEmF_decomp : ∀ (w : List Char) (fuel : Nat) (i tail : List Char),
    w.length + 1 ≤ fuel → '*' ∉ w → i ≠ [] → '\n' ∉ i → '*' ∉ i → '*' ∉ tail →
    subEmF fuel (w ++ '*' :: (i ++ '*' :: tail))
      = w ++ "<em>".data ++ i ++ "</em>".data ++ tail := by
  intro w
  induction w with
  | nil =>
      intro fuel i tail hfuel _ hine hinl hist htst
      cases fuel with
      | zero => exact absurd hfuel (by simp)
      | succ f =>
          rw [List.nil_append]
          conv_lhs => rw [subEmF]
          rw [if_pos rfl]
          rw [emClose_no_star i tail hine hinl hist]
          simp only [subEmF_id_nostar tail f htst]
          simp
  | cons c cs ih =>
      intro fuel i tail hfuel hw hine hinl hist htst
      have hc : ¬(c = '*') := fun hc => hw (hc ▸ List.mem_cons_self c cs)
      have hcs : '*' ∉ cs := fun hm => hw (List.mem_cons_of_mem c hm)
      cases fuel with
      | zero => exact absurd hfuel (by simp)
      | succ f =>
          rw [List.cons_append]
          conv_lhs => rw [subEmF]
          rw [if_neg hc]
          rw [ih f i tail (by simp at hfuel; omega) hcs hine hinl hist htst]
          simp

theorem subEm_decomp (w i tail : List Char)
    (hw : '*' ∉ w) (hine : i ≠ []) (hinl : '\n' ∉ i) (hist : '*' ∉ i) (htst : '*' ∉ tail) :
    subEm (w ++ '*' :: (i ++ '*' :: tail))
      = w ++ "<em>".data ++ i ++ "</em>".data ++ tail := by
  unfold subEm
  refine subEmF_decomp w _ i tail ?_ hw hine hinl hist htst
  simp [List.length_append, List.length_cons]

end Blog

namespace Blog

/-- Claim C9: the three substitution passes are applied in order — bold
first, then italic on the result, then links — so an input holding a bold
span followed by an italic span formats to a strong element followed by an
em element, and the consumed bold markers are never re-matched as italic
markers. -/
theorem inline_format_ordered_passes (b mid i tail : List Char)
    (hbne : b ≠ []) (hbnl : '\n' ∉ b) (hbst : '*' ∉ b) (hblb : '[' ∉ b)
    (hmst : '*' ∉ mid) (hmlb : '[' ∉ mid)
    (hine : i ≠ []) (hinl : '\n' ∉ i) (hist : '*' ∉ i) (hilb : '[' ∉ i)
    (htst : '*' ∉ tail) (htlb : '[' ∉ tail) :
    inline_format ⟨'*' :: '*' :: (b ++ '*' :: '*' :: (mid ++ '*' :: (i ++ '*' :: tail)))⟩
      = ⟨"<strong>".data ++ b ++ "</strong>".data ++ mid
          ++ "<em>".data ++ i ++ "</em>".data ++ tail⟩ := by
  unfold inline_format
  apply congrArg String.mk
  show subLink (subEm (subStrong ('*' :: '*' :: (b ++ '*' :: '*' :: (mid ++ '*' :: (i ++ '*' :: tail)))))) = _
  rw [subStrong_decomp b mid i tail hbne hbnl hbst hmst hine hist htst]
  rw [show "<strong>".data ++ b ++ "</strong>".data ++ (mid ++ '*' :: (i ++ '*' :: tail))
      = ("<strong>".data ++ b ++ "</strong>".data ++ mid) ++ '*' :: (i ++ '*' :: tail) from by
    simp [List.append_assoc]]
  have hw : '*' ∉ "<strong>".data ++ b ++ "</strong>".data ++ mid := by
    simp only [List.mem_append]
    intro h
    rcases h with ((h1 | h2) | h3) | h4
    · exact absurd h1 (by decide)
    · exact hbst h2
    · exact absurd h3 (by decide)
    · exact hmst h4
  rw [subEm_decomp ("<strong>".data ++ b ++ "</strong>".data ++ mid) i tail hw hine hinl hist htst]
  have hlb : '[' ∉ ("<strong>".data ++ b ++ "</strong>".data ++ mid)
      ++ "<em>".data ++ i ++ "</em>".data ++ tail := by
    simp only [List.mem_append]
    intro h
    rcases h with ((((((h1 | h2) | h3) | h4) | h5) | h6) | h7) | h8
    · exact absurd h1 (by decide)
    · exact hblb h2
    · exact absurd h3 (by decide)
    · exact hmlb h4
    · exact absurd h5 (by decide)
    · exact hilb h6
    · exact absurd h7 (by decide)
    · exact htlb h8
  show subLink _ = _
  unfold subLink
  rw [subLinkF_id_nolb _ _ hlb]

end Blog

namespace Blog

/-- Witness for C9: `**bold** and *italic*` formats to a strong element
followed by an em element, in that order. -/
theorem inline_format_ordered_passes_witness :
    inline_format "**bold** and *italic*" = "<strong>bold</strong> and <em>italic</em>" :=
  inline_format_ordered_passes "bold".data " and ".data "italic".data []
    (by decide) (by decide) (by decide) (by decide) (by decide) (by decide)
    (by decide) (by decide) (by decide) (by decide) (by decide) (by decide)

end Blog

namespace Blog

theorem imgClose_at (extra : List Char) : imgClose (']' :: extra) = some extra := rfl

theorem afterG1_close (extra : List Char) : afterG1 (']' :: extra) = some (none, extra) := rfl

theorem imgClose_cons_ne (d : Char) (l : List Char)
    (hsp : isPySpace d = false) (hb : ¬(d = ']')) :
    imgClose (d :: l) = none := by
  unfold imgClose
  rw [List.dropWhile_cons, hsp]
  simp only [Bool.false_eq_true, if_false]
  split
  · rename_i r heq
    injection heq with h1 _
    exact absurd h1 hb
  · rfl

theorem afterG1_cons_ne (d : Char) (l : List Char)
    (hsp : isPySpace d = false) (hb : ¬(d = ']')) (hp : ¬(d = '|')) :
    afterG1 (d :: l) = none := by
  unfold afterG1
  rw [List.dropWhile_cons, hsp]
  simp only [Bool.false_eq_true, if_false]
  split
  · rename_i r heq
    injection heq with h1 _
    exact absurd h1 hb
  · rename_i r heq
    injection heq with h1 _
    exact absurd h1 hp
  · rfl

theorem starSpaces_nsp {α : Type} (k : List Char → Option α) (l : List Char)
    (h : ∀ x, l.head? = some x → isPySpace x = false) : starSpaces k l = k l := by
  cases l with
  | nil => rfl
  | cons x xs =>
      unfold starSpaces
      rw [if_neg (by simp [h x rfl])]

theorem capFrom_token (c : List Char) (extra : List Char)
    (hne : c ≠ []) (hnsp : ∀ x ∈ c, isPySpace x = false)
    (hnb : ']' ∉ c) (hnl : '\n' ∉ c) :
    capFrom (c ++ ']' :: extra) = some (c, extra) := by
  induction c with
  | nil => exact absurd rfl hne
  | cons x cs ih =>
      have hxnl : ¬(x = '\n') := fun h => hnl (h ▸ List.mem_cons_self x cs)
      rw [List.cons_append, capFrom]
      rw [if_neg hxnl]
      cases cs with
      | nil =>
          rw [List.nil_append, imgClose_at]
      | cons d ds =>
          have hdsp : isPySpace d = false :=
            hnsp d (List.mem_cons_of_mem x (List.mem_cons_self d ds))
          have hdb : ¬(d = ']') :=
            fun h => hnb (h ▸ List.mem_cons_of_mem x (List.mem_cons_self d ds))
          rw [List.cons_append, imgClose_cons_ne d _ hdsp hdb]
          have hne' : d :: ds ≠ [] := by simp
          have hnsp' : ∀ y ∈ d :: ds, isPySpace y = false :=
            fun y hy => hnsp y (List.mem_cons_of_mem x hy)
          have hnb' : ']' ∉ d :: ds := fun h => hnb (List.mem_cons_of_mem x h)
          have hnl' : '\n' ∉ d :: ds := fun h => hnl (List.mem_cons_of_mem x h)
          rw [← List.cons_append, ih hne' hnsp' hnb' hnl']
          rfl

end Blog

namespace Blog

theorem afterG1_caption (c : List Char) (extra : List Char)
    (hne : c ≠ []) (hnsp : ∀ x ∈ c, isPySpace x = false)
    (hnb : ']' ∉ c) (hnl : '\n' ∉ c) :
    afterG1 (' ' :: '|' :: ' ' :: (c ++ ']' :: extra)) = some (some c, extra) := by
  unfold afterG1
  rw [List.dropWhile_cons]
  rw [if_pos (by decide : isPySpace ' ' = true)]
  rw [List.dropWhile_cons]
  rw [if_neg (by decide : ¬(isPySpace '|' = true))]
  have hs : starSpaces capFrom (' ' :: (c ++ ']' :: extra)) = some (c, extra) := by
    unfold starSpaces
    rw [if_pos (by decide : isPySpace ' ' = true)]
    have hhead : ∀ x, (c ++ ']' :: extra).head? = some x → isPySpace x = false := by
      intro x hx
      cases c with
      | nil => exact absurd rfl hne
      | cons y ys =>
          rw [List.cons_append] at hx
          have : y = x := Option.some.inj hx
          exact this ▸ hnsp y (List.mem_cons_self y ys)
    rw [starSpaces_nsp capFrom _ hhead]
    rw [capFrom_token c extra hne hnsp hnb hnl]
  simp [hs]

theorem g1From_token (f : List Char) (rest : List Char)
    (cap : Option (List Char)) (r : List Char)
    (hne : f ≠ []) (hnsp : ∀ x ∈ f, isPySpace x = false)
    (hnp : '|' ∉ f) (hnb : ']' ∉ f) (hnl : '\n' ∉ f)
    (hafter : afterG1 rest = some (cap, r)) :
    g1From (f ++ rest) = some (f, cap, r) := by
  induction f with
  | nil => exact absurd rfl hne
  | cons x cs ih =>
      have hxnl : ¬(x = '\n') := fun h => hnl (h ▸ List.mem_cons_self x cs)
      rw [List.cons_append, g1From]
      rw [if_neg hxnl]
      cases cs with
      | nil =>
          rw [List.nil_append, hafter]
      | cons d ds =>
          have hdsp : isPySpace d = false :=
            hnsp d (List.mem_cons_of_mem x (List.mem_cons_self d ds))
          have hdb : ¬(d = ']') :=
            fun h => hnb (h ▸ List.mem_cons_of_mem x (List.mem_cons_self d ds))
          have hdp : ¬(d = '|') :=
            fun h => hnp (h ▸ List.mem_cons_of_mem x (List.mem_cons_self d ds))
          rw [List.cons_append, afterG1_cons_ne d _ hdsp hdb hdp]
          have hne' : d :: ds ≠ [] := by simp
          have hnsp' : ∀ y ∈ d :: ds, isPySpace y = false :=
            fun y hy => hnsp y (List.mem_cons_of_mem x hy)
          have hnp' : '|' ∉ d :: ds := fun h => hnp (List.mem_cons_of_mem x h)
          have hnb' : ']' ∉ d :: ds := fun h => hnb (List.mem_cons_of_mem x h)
          have hnl' : '\n' ∉ d :: ds := fun h => hnl (List.mem_cons_of_mem x h)
          rw [← List.cons_append, ih hne' hnsp' hnp' hnb' hnl']
          rfl

end Blog

namespace Blog

theorem isPrefixOf_self_append (a b : List Char) : a.isPrefixOf (a ++ b) = true := by
  induction a with
  | nil => simp [List.isPrefixOf]
  | cons c cs ih =>
      show ((c == c) && cs.isPrefixOf (cs ++ b)) = true
      rw [ih]
      simp

theorem imgMatch_eq (s : String) (Y : List Char)
    (hdata : s.data = "[SLIKA:".data ++ Y) :
    imgMatch s = (starSpaces g1From Y).map fun p => (⟨p.1⟩, p.2.1.map String.mk) := by
  unfold imgMatch
  rw [hdata]
  rw [if_pos (isPrefixOf_self_append "[SLIKA:".data Y)]
  rw [show (7 : Nat) = "[SLIKA:".data.length from rfl]
  rw [List.drop_left]

theorem head_nonspace_append (f : List Char) (z : List Char)
    (hne : f ≠ []) (hsp : ∀ x ∈ f, isPySpace x = false) :
    ∀ x, (f ++ z).head? = some x → isPySpace x = false := by
  intro x hx
  cases f with
  | nil => exact absurd rfl hne
  | cons y ys =>
      rw [List.cons_append] at hx
      have hyx : y = x := Option.some.inj hx
      exact hyx ▸ hsp y (List.mem_cons_self y ys)

theorem imgMatch_directive (f : List Char) (cap : Option (List Char)) (extra : List Char)
    (hfne : f ≠ []) (hfsp : ∀ x ∈ f, isPySpace x = false) (hfp : '|' ∉ f)
    (hfb : ']' ∉ f) (hfnl : '\n' ∉ f)
    (hcap : ∀ cl, cap = some cl →
      cl ≠ [] ∧ (∀ x ∈ cl, isPySpace x = false) ∧ ']' ∉ cl ∧ '\n' ∉ cl) :
    imgMatch ⟨"[SLIKA: ".data ++ f
        ++ (match cap with | none => [] | some cl => ' ' :: '|' :: ' ' :: cl)
        ++ ']' :: extra⟩
      = some (⟨f⟩, cap.map String.mk) := by
  cases cap with
  | none =>
      have hdata : (⟨"[SLIKA: ".data ++ f
          ++ (match (none : Option (List Char)) with
              | none => [] | some cl => ' ' :: '|' :: ' ' :: cl)
          ++ ']' :: extra⟩ : String).data
          = "[SLIKA:".data ++ (' ' :: (f ++ ']' :: extra)) := by
        show "[SLIKA: ".data ++ f ++ ([] : List Char) ++ ']' :: extra = _
        simp [List.append_assoc]
      rw [imgMatch_eq _ _ hdata]
      have h1 : starSpaces g1From (' ' :: (f ++ ']' :: extra)) = some (f, none, extra) := by
        unfold starSpaces
        rw [if_pos (by decide : isPySpace ' ' = true)]
        rw [starSpaces_nsp g1From _ (head_nonspace_append f _ hfne hfsp)]
        rw [g1From_token f (']' :: extra) none extra hfne hfsp hfp hfb hfnl
          (afterG1_close extra)]
      simp [h1]
  | some cl =>
      obtain ⟨hcne, hcsp, hcb, hcnl⟩ := hcap cl rfl
      have hdata : (⟨"[SLIKA: ".data ++ f
          ++ (match (some cl : Option (List Char)) with
              | none => [] | some cl => ' ' :: '|' :: ' ' :: cl)
          ++ ']' :: extra⟩ : String).data
          = "[SLIKA:".data ++ (' ' :: (f ++ (' ' :: '|' :: ' ' :: (cl ++ ']' :: extra)))) := by
        show "[SLIKA: ".data ++ f ++ (' ' :: '|' :: ' ' :: cl) ++ ']' :: extra = _
        simp [List.append_assoc]
      rw [imgMatch_eq _ _ hdata]
      have h1 : starSpaces g1From (' ' :: (f ++ (' ' :: '|' :: ' ' :: (cl ++ ']' :: extra))))
          = some (f, some cl, extra) := by
        unfold starSpaces
        rw [if_pos (by decide : isPySpace ' ' = true)]
        rw [starSpaces_nsp g1From _ (head_nonspace_append f _ hfne hfsp)]
        rw [g1From_token f (' ' :: '|' :: ' ' :: (cl ++ ']' :: extra)) (some cl) extra
          hfne hfsp hfp hfb hfnl (afterG1_caption cl extra hcne hcsp hcb hcnl)]
      simp [h1]

end Blog

namespace Blog

/-- Claim C10: the image rule matches only a prefix of the line — a line
whose stripped form begins with a well-formed `[SLIKA: file]` or
`[SLIKA: file | caption]` directive followed by any trailing text emits
the figure parts built from the file and caption alone, silently discards
the trailing text, and advances one line. -/
theorem image_directive_prefix_only (fn : String) (lines : List String)
    (fuel i : Nat) (in_list : Bool) (parts : List String) (line : String)
    (f extra : List Char) (cap : Option (List Char))
    (hget : lines.get? i = some line)
    (hfne : f ≠ []) (hfsp : ∀ x ∈ f, isPySpace x = false) (hfp : '|' ∉ f)
    (hfb : ']' ∉ f) (hfnl : '\n' ∉ f)
    (hcap : ∀ cl, cap = some cl →
      cl ≠ [] ∧ (∀ x ∈ cl, isPySpace x = false) ∧ ']' ∉ cl ∧ '\n' ∉ cl)
    (heq : pyStrip line
      = ⟨"[SLIKA: ".data ++ f
          ++ (match cap with | none => [] | some cl => ' ' :: '|' :: ' ' :: cl)
          ++ ']' :: extra⟩) :
    scanLoop fn lines (fuel + 1) i in_list parts
      = scanLoop fn lines fuel (i + 1) false
          (closeIf parts in_list ++ figParts fn ⟨f⟩ ((cap.map String.mk).getD "")) := by
  cases cap with
  | none =>
      have himg : imgMatch (pyStrip line)
          = some (⟨f⟩, (none : Option (List Char)).map String.mk) := by
        rw [heq]
        exact imgMatch_directive f none extra hfne hfsp hfp hfb hfnl hcap
      have hdata : (pyStrip line).data
          = '[' :: ("SLIKA: ".data ++ f ++ ([] : List Char) ++ ']' :: extra) :=
        congrArg String.data heq
      have hne0 : ¬(pyStrip line = "") := ne_empty_of_head hdata
      conv_lhs => rw [scanLoop]
      simp only [hget, himg, if_neg hne0]
  | some cl =>
      have himg : imgMatch (pyStrip line)
          = some (⟨f⟩, (some cl : Option (List Char)).map String.mk) := by
        rw [heq]
        exact imgMatch_directive f (some cl) extra hfne hfsp hfp hfb hfnl hcap
      have hdata : (pyStrip line).data
          = '[' :: ("SLIKA: ".data ++ f ++ (' ' :: '|' :: ' ' :: cl) ++ ']' :: extra) :=
        congrArg String.data heq
      have hne0 : ¬(pyStrip line = "") := ne_empty_of_head hdata
      conv_lhs => rw [scanLoop]
      simp only [hget, himg, if_neg hne0]

end Blog

namespace Blog

/-- Witness for C10: `[SLIKA: x.png | Cap] trailing` emits the figure for
`x.png` with caption `Cap` and drops the trailing text. -/
theorem image_directive_prefix_only_witness :
    scanLoop "post" ["[SLIKA: x.png | Cap] trailing"] (0 + 1) 0 false []
      = scanLoop "post" ["[SLIKA: x.png | Cap] trailing"] 0 (0 + 1) false
          (closeIf [] false ++ figParts "post" "x.png" "Cap") :=
  image_directive_prefix_only "post" ["[SLIKA: x.png | Cap] trailing"] 0 0 false []
    "[SLIKA: x.png | Cap] trailing" "x.png".data " trailing".data (some "Cap".data)
    rfl (by decide) (by decide) (by decide) (by decide) (by decide)
    (by
      intro cl hcl
      cases hcl
      exact ⟨by decide, by decide, by decide, by decide⟩)
    rfl

end Blog
